import Mathlib

/-!
# Layered layout (`src/layout/layered.c`)

A shallow embedding of the layered layout of vgmstream: a composite stream whose
decoded output is the channel-wise concatenation of several complete child streams.

Conventions of the embedding.

* C `int` values are mathematical integers (`Int`); counters that the code keeps
  non-negative (`samples_written`, `samples_to_do`, `ch`, loop indices, buffer
  indices) are `Nat`.  Signed overflow is undefined in C, so the model describes the
  runs in which every `int` stays in range.
* A sample buffer is a function `Nat → sample_t`; a store is `Function.update`.
  The capacity of an array is not part of a buffer: that the indices used stay below
  it is a property of the index expressions `layer_sample` and `buffer_sample`.
* A pointer that may be `NULL` is an `Option`.  A function whose C body can access
  memory it must not (a `NULL` or out-of-range slot dereferenced without a check)
  returns `Option _`, with `none` for such a run.
* Functions of the repository that are not part of this file (`render_vgmstream`,
  `setup_vgmstream`, `reset_vgmstream`, `allocate_vgmstream`, `calloc`) are parameters;
  `close_vgmstream` only appears as a recorded call.  Every call of
  an external function is also appended to a list of `Event`s, in call order.
-/

namespace Layered

/-- A decoded sample (`sample_t`, a 16-bit integer that is only ever copied). -/
abbrev sample_t := Int

/-- The chunk size, `#define LAYER_BUF_SIZE 512`. -/
def LAYER_BUF_SIZE : Nat := 512

/-- The per-layer channel cap, `#define LAYER_MAX_CHANNELS 6`. -/
def LAYER_MAX_CHANNELS : Nat := 6

/-- Modelled from the spec: the enumeration `layout_t` is declared in a header that is
not among the sources; only its member `layout_layered` is used here. -/
inductive layout_t where
  | layout_none
  | layout_layered
  | layout_other (tag : Nat)
  deriving DecidableEq, Repr

/-- Modelled from the spec: the `VGMSTREAM` record is declared in `vgmstream.h`, which is
not among the sources.  The fields are the ones `layered.c` reads or writes; following
the decodable-stream contract (`channels: integer ≥ 1`) the channel count is a natural
number, the other numeric fields are C `int`s, `coding_type` and `meta_type` are
opaque tags.  `layout_data` holds whatever the layout (or codec) keeps per stream. -/
structure VGMSTREAM (δ : Type) where
  channels : Nat
  sample_rate : Int
  num_samples : Int
  loop_flag : Int
  loop_start_sample : Int
  loop_end_sample : Int
  current_sample : Int
  coding_type : Int
  meta_type : Int
  layout_type : layout_t
  layout_data : δ

/-- The state of a layered layout (`layered_layout_data`): `layer_count` and the
array `layers` of child stream pointers.  `layers = none` is a `NULL` array pointer,
a slot `none` is a `NULL` child pointer. -/
structure layered_layout_data (σ : Type) where
  layer_count : Int
  layers : Option (List (Option (VGMSTREAM σ)))

/-- Calls of external functions, in the order in which they are issued. -/
inductive Event where
  | render_vgmstream (layer : Nat) (samples_to_do : Nat) (decoded : Nat → sample_t)
  | setup_vgmstream (layer : Nat)
  | reset_vgmstream (layer : Nat)
  | close_vgmstream (layer : Option Nat) (is_null : Bool)
  | log_sample_rate (layer : Nat)
  | log_coding_type (layer : Nat)

variable {σ : Type}

/-- The read `data->layers[i]`: `none` when the access is invalid (array pointer
`NULL`, or `i` outside the array), otherwise the slot's content. -/
def layered_layout_data.layer (data : layered_layout_data σ) (i : Nat) :
    Option (Option (VGMSTREAM σ)) :=
  match data.layers with
  | none => none
  | some ls => ls[i]?

/-- The dereference `data->layers[i]->…`: `none` when the access is invalid or the
slot is `NULL`. -/
def layered_layout_data.deref (data : layered_layout_data σ) (i : Nat) :
    Option (VGMSTREAM σ) :=
  match data.layer i with
  | some (some l) => some l
  | _ => none

/-- The child in slot `i` after an in-place modification by an external call. -/
def layered_layout_data.store (data : layered_layout_data σ) (i : Nat) (l : VGMSTREAM σ) :
    layered_layout_data σ :=
  { data with layers := data.layers.map (fun ls => ls.set i (some l)) }

/-! ## `free_layout_layered` and `init_layout_layered` -/

/-- The function `free_layout_layered`: returns the `close_vgmstream` calls it issues
(one per slot below `layer_count`, `NULL` slots included). -/
def free_layout_layered (data : Option (layered_layout_data σ)) : Option (List Event) :=
  match data with
  | none => some []
  | some d =>
    match d.layers with
    | none => some []
    | some ls =>
      (List.range d.layer_count.toNat).mapM
        (fun i => (ls[i]?).map (fun slot => Event.close_vgmstream (some i) slot.isNone))

/-- The function `init_layout_layered`.  The two `calloc` calls succeed or not as `calloc_data`
and `calloc_layers` say.  The result is the returned pointer together with the
`close_vgmstream` calls of the `fail:` path. -/
def init_layout_layered (calloc_data calloc_layers : Bool) (layer_count : Int) :
    Option (Option (layered_layout_data σ) × List Event) :=
  let fail := fun (data : Option (layered_layout_data σ)) =>
    (free_layout_layered data).map (fun ev => (none, ev))
  if layer_count ≤ 0 ∨ layer_count > 255 then fail none
  else if !calloc_data then fail none
  else
    let data : layered_layout_data σ := { layer_count := layer_count, layers := none }
    if !calloc_layers then fail (some data)
    else some (some { data with layers := some (List.replicate layer_count.toNat none) }, [])

/-! ## `setup_layout_layered` -/

/-- The two `VGM_LOG` warnings of `setup_layout_layered` for layer `i`, compared with
the previous layer. -/
def setup_warnings (i : Nat) (cur prev : VGMSTREAM σ) : List Event :=
  (if cur.sample_rate ≠ prev.sample_rate then [Event.log_sample_rate i] else []) ++
  (if cur.coding_type ≠ prev.coding_type then [Event.log_coding_type i] else [])

/-- The `for` loop of `setup_layout_layered` from index `i`, with `remaining`
iterations left; returns the function's return value, the state and the events. -/
def setup_loop (setup_vgmstream : VGMSTREAM σ → VGMSTREAM σ) :
    Nat → Nat → layered_layout_data σ → List Event →
      Option (Int × layered_layout_data σ × List Event)
  | 0, _, data, ev => some (1, data, ev)
  | remaining + 1, i, data, ev =>
    match data.layer i with
    | none => none
    | some none => some (0, data, ev)
    | some (some l) =>
      if l.num_samples ≤ 0 then some (0, data, ev)
      else if l.channels > LAYER_MAX_CHANNELS then some (0, data, ev)
      else
        match (if i > 0 then (data.deref (i - 1)).map (setup_warnings i l) else some []) with
        | none => none
        | some w =>
          setup_loop setup_vgmstream remaining (i + 1) (data.store i (setup_vgmstream l))
            (ev ++ w ++ [Event.setup_vgmstream i])

/-- The function `setup_layout_layered`: the loop over all `layer_count` layers. -/
def setup_layout_layered (setup_vgmstream : VGMSTREAM σ → VGMSTREAM σ)
    (data : layered_layout_data σ) : Option (Int × layered_layout_data σ × List Event) :=
  setup_loop setup_vgmstream data.layer_count.toNat 0 data []

/-! ## `reset_layout_layered` -/

/-- One iteration of the loop of `reset_layout_layered`: the call
`reset_vgmstream(data->layers[i])`.  `reset_vgmstream` is the external reset of one
stream; a call with a `NULL` slot is recorded and leaves the slot as it is. -/
def reset_layer (reset_vgmstream : VGMSTREAM σ → VGMSTREAM σ)
    (st : layered_layout_data σ × List Event) (i : Nat) :
    Option (layered_layout_data σ × List Event) :=
  match st.1.layer i with
  | none => none
  | some none => some (st.1, st.2 ++ [Event.reset_vgmstream i])
  | some (some l) => some (st.1.store i (reset_vgmstream l), st.2 ++ [Event.reset_vgmstream i])

/-- The function `reset_layout_layered`: the state after the call and the
`reset_vgmstream` calls it issues. -/
def reset_layout_layered (reset_vgmstream : VGMSTREAM σ → VGMSTREAM σ)
    (data : Option (layered_layout_data σ)) :
    Option (Option (layered_layout_data σ) × List Event) :=
  match data with
  | none => some (none, [])
  | some d =>
    match (List.range d.layer_count.toNat).foldlM (reset_layer reset_vgmstream) (d, []) with
    | none => none
    | some st => some (some st.1, st.2)

/-! ## `allocate_layered_vgmstream` -/

/-- The `get data` loop of `allocate_layered_vgmstream`: the pair
`(channels, loop_flag)` after the loop. -/
def allocate_layered_totals (data : layered_layout_data σ) : Option (Nat × Int) :=
  (List.range data.layer_count.toNat).foldlM
    (fun (acc : Nat × Int) i =>
      (data.deref i).map (fun l =>
        (acc.1 + l.channels, if acc.2 ≠ 0 ∧ l.loop_flag = 0 then 0 else acc.2)))
    (0, 1)

/-- The function `allocate_layered_vgmstream`: the returned pointer and the calls of the `fail:`
path.  `allocate_vgmstream channels loop_flag` is the external allocator. -/
def allocate_layered_vgmstream (allocate_vgmstream : Nat → Int → Option (VGMSTREAM Unit))
    (data : layered_layout_data σ) :
    Option (Option (VGMSTREAM (layered_layout_data σ)) × List Event) :=
  match allocate_layered_totals data with
  | none => none
  | some (channels, loop_flag) =>
    match allocate_vgmstream channels loop_flag with
    | none => some (none, [Event.close_vgmstream none true])
    | some vgmstream =>
      match data.deref 0 with
      | none => none
      | some l0 =>
        some (some
          { channels := vgmstream.channels
            loop_flag := vgmstream.loop_flag
            current_sample := vgmstream.current_sample
            meta_type := l0.meta_type
            sample_rate := l0.sample_rate
            num_samples := l0.num_samples
            loop_start_sample := l0.loop_start_sample
            loop_end_sample := l0.loop_end_sample
            coding_type := l0.coding_type
            layout_type := layout_t.layout_layered
            layout_data := data }, [])

/-! ## `render_vgmstream_layered` -/

/-- The scratch index `size_t layer_sample = s*layer_channels + layer_ch`. -/
def layer_sample (s layer_channels layer_ch : Nat) : Nat :=
  s * layer_channels + layer_ch

/-- The output index `size_t buffer_sample = (samples_written+s)*vgmstream->channels + ch`. -/
def buffer_sample (samples_written s channels ch : Nat) : Nat :=
  (samples_written + s) * channels + ch

/-- The innermost loop (`for s`): copies one channel of the layer into the output,
`buffer[buffer_sample] = interleave_buf[layer_sample]`. -/
def mix_channel (interleave_buf : Nat → sample_t)
    (samples_written samples_to_do channels layer_channels ch layer_ch : Nat)
    (buffer : Nat → sample_t) : Nat → sample_t :=
  (List.range samples_to_do).foldl
    (fun buffer s =>
      Function.update buffer (buffer_sample samples_written s channels ch)
        (interleave_buf (layer_sample s layer_channels layer_ch)))
    buffer

/-- The loop `for layer_ch`: "mix layer samples to main samples"; the state is the
output buffer and the running channel `ch`. -/
def mix_layer (interleave_buf : Nat → sample_t)
    (samples_written samples_to_do channels layer_channels : Nat)
    (st : (Nat → sample_t) × Nat) : (Nat → sample_t) × Nat :=
  (List.range layer_channels).foldl
    (fun st layer_ch =>
      (mix_channel interleave_buf samples_written samples_to_do channels layer_channels
        st.2 layer_ch st.1, st.2 + 1))
    st

/-- The state carried by the `while` loop: the output buffer, the scratch array
`interleave_buf`, the composite stream and the external calls issued so far. -/
structure render_state (σ : Type) where
  buffer : Nat → sample_t
  interleave_buf : Nat → sample_t
  vgmstream : VGMSTREAM (layered_layout_data σ)
  events : List Event

/-- One iteration of the loop `for layer`; the state is paired with the running
output channel `ch`. -/
def render_layer
    (render_vgmstream : (Nat → sample_t) → Nat → VGMSTREAM σ → (Nat → sample_t) × VGMSTREAM σ)
    (samples_written samples_to_do : Nat) (st : render_state σ × Nat) (layer : Nat) :
    Option (render_state σ × Nat) :=
  match st.1.vgmstream.layout_data.deref layer with
  | none => none
  | some l =>
    let layer_channels := l.channels
    let r := render_vgmstream st.1.interleave_buf samples_to_do l
    let m := mix_layer r.1 samples_written samples_to_do st.1.vgmstream.channels layer_channels
      (st.1.buffer, st.2)
    some
      ({ buffer := m.1
         interleave_buf := r.1
         vgmstream :=
           { st.1.vgmstream with layout_data := st.1.vgmstream.layout_data.store layer r.2 }
         events := st.1.events ++ [Event.render_vgmstream layer samples_to_do r.1] }, m.2)

/-- The loop `for (layer = 0; layer < data->layer_count; layer++)` of one pass, started
with `ch = 0`. -/
def render_layers
    (render_vgmstream : (Nat → sample_t) → Nat → VGMSTREAM σ → (Nat → sample_t) × VGMSTREAM σ)
    (samples_written samples_to_do : Nat) (st : render_state σ) :
    Option (render_state σ × Nat) :=
  (List.range st.vgmstream.layout_data.layer_count.toNat).foldlM
    (render_layer render_vgmstream samples_written samples_to_do) (st, 0)

/-- The `while (samples_written < sample_count)` loop, with `fuel` bounding the number
of passes.  `none` when an invalid access happens or the fuel runs out before the
loop condition fails. -/
def render_loop
    (render_vgmstream : (Nat → sample_t) → Nat → VGMSTREAM σ → (Nat → sample_t) × VGMSTREAM σ)
    (sample_count : Int) : Nat → Nat → render_state σ → Option (render_state σ)
  | fuel, samples_written, st =>
    if (samples_written : Int) < sample_count then
      match fuel with
      | 0 => none
      | fuel + 1 =>
        let samples_to_do : Nat :=
          if (LAYER_BUF_SIZE : Int) > sample_count - samples_written
          then (sample_count - samples_written).toNat else LAYER_BUF_SIZE
        match render_layers render_vgmstream samples_written samples_to_do st with
        | none => none
        | some st1 =>
          match st1.1.vgmstream.layout_data.deref 0 with
          | none => none
          | some l0 =>
            render_loop render_vgmstream sample_count fuel (samples_written + samples_to_do)
              { st1.1 with
                vgmstream := { st1.1.vgmstream with current_sample := l0.current_sample } }
    else some st

/-- The function `render_vgmstream_layered`.  `interleave_buf` is the initial (indeterminate) content
of the local scratch array.  Every pass decodes at least one frame, so
`sample_count` passes always suffice. -/
def render_vgmstream_layered
    (render_vgmstream : (Nat → sample_t) → Nat → VGMSTREAM σ → (Nat → sample_t) × VGMSTREAM σ)
    (interleave_buf buffer : Nat → sample_t) (sample_count : Int)
    (vgmstream : VGMSTREAM (layered_layout_data σ)) : Option (render_state σ) :=
  render_loop render_vgmstream sample_count sample_count.toNat 0
    { buffer := buffer, interleave_buf := interleave_buf, vgmstream := vgmstream, events := [] }

/-! ## Predicates and auxiliary definitions used in the statements and proofs -/

/-- The composite state holds exactly the children `cs`, in attachment order, and no
empty slot. -/
def Populated (data : layered_layout_data σ) (cs : List (VGMSTREAM σ)) : Prop :=
  data.layer_count = cs.length ∧ data.layers = some (cs.map some)

/-- A slot that makes `setup_layout_layered` give up: empty, or holding a child
without samples or with too many channels. -/
def BadSlot (slot : Option (VGMSTREAM σ)) : Prop :=
  match slot with
  | none => True
  | some l => l.num_samples ≤ 0 ∨ l.channels > LAYER_MAX_CHANNELS

/-- The loop flag `allocate_layered_vgmstream` computes for the children `cs`. -/
def all_loop (cs : List (VGMSTREAM σ)) : Int :=
  if ∀ c ∈ cs, c.loop_flag ≠ 0 then 1 else 0

/-- What one pass of the loop `for layer` leaves behind. -/
structure pass_result (σ : Type) where
  children : List (VGMSTREAM σ)
  events : List Event
  interleave_buf : Nat → sample_t
  buffer : Nat → sample_t
  ch : Nat

/-- The loop `for layer` of `render_vgmstream_layered` on the children themselves
(`render_layers` when every slot is filled): the layers from index `i` on are `cs`. -/
def pass_layers
    (render_vgmstream : (Nat → sample_t) → Nat → VGMSTREAM σ → (Nat → sample_t) × VGMSTREAM σ)
    (samples_written samples_to_do channels : Nat) :
    Nat → List (VGMSTREAM σ) → (Nat → sample_t) → (Nat → sample_t) → Nat → pass_result σ
  | _, [], interleave_buf, buffer, ch =>
    { children := [], events := [], interleave_buf := interleave_buf, buffer := buffer, ch := ch }
  | i, l :: cs, interleave_buf, buffer, ch =>
    let r := render_vgmstream interleave_buf samples_to_do l
    let m := mix_layer r.1 samples_written samples_to_do channels l.channels (buffer, ch)
    let rest := pass_layers render_vgmstream samples_written samples_to_do channels (i + 1) cs
      r.1 m.1 m.2
    { children := r.2 :: rest.children
      events := Event.render_vgmstream i samples_to_do r.1 :: rest.events
      interleave_buf := rest.interleave_buf
      buffer := rest.buffer
      ch := rest.ch }

/-- The sum of the channel counts of `cs`. -/
def total_channels (cs : List (VGMSTREAM σ)) : Nat :=
  (cs.map (fun c => c.channels)).sum

/-- The first output channel of layer `i`: the channels of the layers before it. -/
def channel_offset (cs : List (VGMSTREAM σ)) (i : Nat) : Nat :=
  total_channels (cs.take i)

/-- The loop-carried state of `render_vgmstream_layered` on a populated composite:
the children themselves instead of the slots, and the composite's `current_sample`. -/
structure loop_state (σ : Type) where
  buffer : Nat → sample_t
  interleave_buf : Nat → sample_t
  children : List (VGMSTREAM σ)
  current_sample : Int
  events : List Event

/-- The `while` loop of `render_vgmstream_layered` on the children themselves
(`render_loop` when every slot is filled), for `sample_count = N ≥ 0` and composite
channel count `T`. -/
def pass_loop
    (render_vgmstream : (Nat → sample_t) → Nat → VGMSTREAM σ → (Nat → sample_t) × VGMSTREAM σ)
    (T N : Nat) : Nat → Nat → loop_state σ → loop_state σ
  | 0, _, st => st
  | fuel + 1, samples_written, st =>
    if samples_written < N then
      let samples_to_do := min LAYER_BUF_SIZE (N - samples_written)
      let p := pass_layers render_vgmstream samples_written samples_to_do T 0 st.children
        st.interleave_buf st.buffer 0
      pass_loop render_vgmstream T N fuel (samples_written + samples_to_do)
        { buffer := p.buffer
          interleave_buf := p.interleave_buf
          children := p.children
          current_sample := (p.children.head?.map (fun l => l.current_sample)).getD
            st.current_sample
          events := st.events ++ p.events }
    else st

/-- The state of the program that a `loop_state` stands for, given the composite. -/
def loop_state.to_render (vg : VGMSTREAM (layered_layout_data σ)) (st : loop_state σ) :
    render_state σ :=
  { buffer := st.buffer
    interleave_buf := st.interleave_buf
    vgmstream :=
      { vg with
        current_sample := st.current_sample
        layout_data := { vg.layout_data with layers := some (st.children.map some) } }
    events := st.events }

/-- The decoder leaves the channel count of a stream alone. -/
def KeepsChannels
    (rv : (Nat → sample_t) → Nat → VGMSTREAM σ → (Nat → sample_t) × VGMSTREAM σ) : Prop :=
  ∀ b n v, (rv b n v).2.channels = v.channels

/-- Deterministic children: a decode call leaves the channel count alone; the state
it leaves and the samples it produces (`n * channels` of them) depend only on the
child and the number of frames, not on what the scratch array held; and decoding
`n1` frames and then `n2` frames gives the same samples and the same final state as
decoding `n1 + n2` frames at once. -/
structure Deterministic
    (rv : (Nat → sample_t) → Nat → VGMSTREAM σ → (Nat → sample_t) × VGMSTREAM σ) : Prop where
  channels : ∀ b n v, (rv b n v).2.channels = v.channels
  state_indep : ∀ b b1 n v, (rv b n v).2 = (rv b1 n v).2
  samples_indep : ∀ b b1 n v j, j < n * v.channels → (rv b n v).1 j = (rv b1 n v).1 j
  state_add : ∀ b n1 n2 v, (rv b n2 (rv b n1 v).2).2 = (rv b (n1 + n2) v).2
  samples_fst : ∀ b n1 n2 v j, j < n1 * v.channels →
    (rv b (n1 + n2) v).1 j = (rv b n1 v).1 j
  samples_snd : ∀ b n1 n2 v j, j < n2 * v.channels →
    (rv b (n1 + n2) v).1 (n1 * v.channels + j) = (rv b n2 (rv b n1 v).2).1 j

/-- The state of a child after decoding `n` frames. -/
def decode_state
    (rv : (Nat → sample_t) → Nat → VGMSTREAM σ → (Nat → sample_t) × VGMSTREAM σ)
    (n : Nat) (c : VGMSTREAM σ) : VGMSTREAM σ :=
  (rv (fun _ => 0) n c).2

/-- The samples a child produces when decoding `n` frames. -/
def decode_samples
    (rv : (Nat → sample_t) → Nat → VGMSTREAM σ → (Nat → sample_t) × VGMSTREAM σ)
    (n : Nat) (c : VGMSTREAM σ) : Nat → sample_t :=
  (rv (fun _ => 0) n c).1

/-- The state of a child after `n` frames were decoded from it by the renderer (no
call is made for `n = 0`). -/
def advance_child
    (rv : (Nat → sample_t) → Nat → VGMSTREAM σ → (Nat → sample_t) × VGMSTREAM σ)
    (n : Nat) (c : VGMSTREAM σ) : VGMSTREAM σ :=
  if n = 0 then c else decode_state rv n c

/-- The composite after a render of `N` frames with deterministic children `cs`:
every child advanced by `N` frames, `current_sample` taken from the first child. -/
def advance_composite
    (rv : (Nat → sample_t) → Nat → VGMSTREAM σ → (Nat → sample_t) × VGMSTREAM σ)
    (N : Nat) (vg : VGMSTREAM (layered_layout_data σ)) (cs : List (VGMSTREAM σ)) :
    VGMSTREAM (layered_layout_data σ) :=
  { vg with
    current_sample :=
      if N = 0 then vg.current_sample
      else (((cs.map (advance_child rv N)).head?).map (fun l => l.current_sample)).getD
        vg.current_sample
    layout_data :=
      { vg.layout_data with layers := some ((cs.map (advance_child rv N)).map some) } }

/-- A child stream with `channels` channels and 100 samples; its decoder state is the
number `value`. -/
def test_child (channels : Nat) (sample_rate coding_type loop_flag value : Int) :
    VGMSTREAM Int :=
  { channels := channels, sample_rate := sample_rate, num_samples := 100,
    loop_flag := loop_flag, loop_start_sample := 0, loop_end_sample := 100,
    current_sample := 0, coding_type := coding_type, meta_type := 0,
    layout_type := layout_t.layout_none, layout_data := value }

/-- A decoder that always decodes the child's `value`. -/
def constant_decoder (_ : Nat → sample_t) (n : Nat) (l : VGMSTREAM Int) :
    (Nat → sample_t) × VGMSTREAM Int :=
  (fun _ => l.layout_data, { l with current_sample := l.current_sample + n })

/-- A decoder whose output depends on the position in the stream: frame `f` of a call
holds `value + current_sample + f` in every channel. -/
def ramp_decoder (_ : Nat → sample_t) (n : Nat) (l : VGMSTREAM Int) :
    (Nat → sample_t) × VGMSTREAM Int :=
  (fun j => l.layout_data + l.current_sample + ((j / l.channels : Nat) : Int),
    { l with current_sample := l.current_sample + n })

/-- The composite stream over the given children. -/
def test_composite (children : List (VGMSTREAM Int)) : VGMSTREAM (layered_layout_data Int) :=
  { channels := (children.map (fun c => c.channels)).sum, sample_rate := 44100,
    num_samples := 100, loop_flag := 1, loop_start_sample := 0, loop_end_sample := 100,
    current_sample := 0, coding_type := 0, meta_type := 0,
    layout_type := layout_t.layout_layered,
    layout_data := { layer_count := children.length, layers := some (children.map some) } }

/-- An allocator that always succeeds. -/
def test_allocate (channels : Nat) (loop_flag : Int) : Option (VGMSTREAM Unit) :=
  some
    { channels := channels, sample_rate := 0, num_samples := 0, loop_flag := loop_flag,
      loop_start_sample := 0, loop_end_sample := 0, current_sample := 0, coding_type := 0,
      meta_type := 0, layout_type := layout_t.layout_none, layout_data := () }

/-- Two mono children for the examples. -/
def test_pair : List (VGMSTREAM Int) :=
  [test_child 1 44100 0 1 10, test_child 1 44100 0 1 20]

/-- Three children with 2, 1 and 2 channels; the second one differs from the others in
sample rate and coding type and does not loop. -/
def test_trio : List (VGMSTREAM Int) :=
  [test_child 2 48000 5 1 100, test_child 1 44100 3 0 200, test_child 2 48000 5 1 300]

/-- A composite state with five slots of which only the first two were attached. -/
def test_partial : layered_layout_data Int :=
  { layer_count := 5,
    layers := some [some (test_child 1 44100 0 1 10), some (test_child 1 44100 0 1 20),
      none, none, none] }

/-- A composite state without any layer: `layer_count = 0` and an empty slot array. -/
def test_empty : layered_layout_data Int :=
  { layer_count := 0, layers := some [] }

/-- An allocator that always fails. -/
def test_allocate_fails (_ : Nat) (_ : Int) : Option (VGMSTREAM Unit) :=
  none

/-- The decode call an event records: the layer and the number of frames requested. -/
def Event.decode_call : Event → Option (Nat × Nat)
  | Event.render_vgmstream layer samples_to_do _ => some (layer, samples_to_do)
  | _ => none

/-- The decode calls of a render of `N` frames as the specification gives them:
`ceil(N / 512)` passes, pass `p` requesting `min(512, N - 512 * p)` frames from each of
the `layer_count` layers in attachment order. -/
def decode_schedule (layer_count N : Nat) : List (Nat × Nat) :=
  (List.range ((N + (LAYER_BUF_SIZE - 1)) / LAYER_BUF_SIZE)).flatMap
    (fun p => (List.range layer_count).map
      (fun i => (i, min LAYER_BUF_SIZE (N - LAYER_BUF_SIZE * p))))

/-- A decoder under which the children drift apart: a call for `n` frames advances
`current_sample` by `n * channels`. -/
def stride_decoder (_ : Nat → sample_t) (n : Nat) (l : VGMSTREAM Int) :
    (Nat → sample_t) × VGMSTREAM Int :=
  (fun _ => l.layout_data, { l with current_sample := l.current_sample + n * l.channels })

/-- Which child each slot holds: `tag` stands for the identity of a child (any
attribute of a stream that the external operations leave alone); an empty slot has
none. -/
def slot_tags {α : Type} (tag : VGMSTREAM σ → α) (data : layered_layout_data σ) :
    Option (List (Option α)) :=
  data.layers.map (fun ls => ls.map (fun slot => slot.map tag))

/-! ## The array accesses of `render_vgmstream_layered` -/

/-- The accesses of the loop `for s` for one channel of a layer, in order: for each
`s` the index read in `interleave_buf`, the index written in `buffer`, and `ch`. -/
def channel_accesses (samples_written samples_to_do channels layer_channels ch layer_ch : Nat) :
    List (Nat × Nat × Nat) :=
  (List.range samples_to_do).map
    (fun s => (layer_sample s layer_channels layer_ch,
      buffer_sample samples_written s channels ch, ch))

/-- The accesses of the loop `for layer_ch` for one layer, entered with the running
channel `ch`. -/
def layer_accesses (samples_written samples_to_do channels layer_channels ch : Nat) :
    List (Nat × Nat × Nat) :=
  (List.range layer_channels).flatMap
    (fun layer_ch =>
      channel_accesses samples_written samples_to_do channels layer_channels (ch + layer_ch)
        layer_ch)

/-- The accesses of one pass of the loop `for layer` over the children `cs`: each
layer is decoded, then mixed with its own channel count. -/
def pass_accesses
    (render_vgmstream : (Nat → sample_t) → Nat → VGMSTREAM σ → (Nat → sample_t) × VGMSTREAM σ)
    (samples_written samples_to_do channels : Nat) :
    List (VGMSTREAM σ) → (Nat → sample_t) → Nat → List (Nat × Nat × Nat)
  | [], _, _ => []
  | l :: cs, interleave_buf, ch =>
    layer_accesses samples_written samples_to_do channels l.channels ch ++
      pass_accesses render_vgmstream samples_written samples_to_do channels cs
        (render_vgmstream interleave_buf samples_to_do l).1 (ch + l.channels)

/-- The accesses of the `while` loop from `samples_written` on: those of the pass,
then those of the rest of the loop on the state the pass leaves (`pass_loop` with
fuel 1 runs exactly that pass). -/
def loop_accesses
    (render_vgmstream : (Nat → sample_t) → Nat → VGMSTREAM σ → (Nat → sample_t) × VGMSTREAM σ)
    (T N : Nat) : Nat → Nat → loop_state σ → List (Nat × Nat × Nat)
  | 0, _, _ => []
  | fuel + 1, samples_written, st =>
    if samples_written < N then
      pass_accesses render_vgmstream samples_written
          (min LAYER_BUF_SIZE (N - samples_written)) T st.children st.interleave_buf 0 ++
        loop_accesses render_vgmstream T N fuel
          (samples_written + min LAYER_BUF_SIZE (N - samples_written))
          (pass_loop render_vgmstream T N 1 samples_written st)
    else []

/-- All array accesses of `render_vgmstream_layered` of `N` frames on the composite
`vg` populated with the children `cs`. -/
def render_accesses
    (render_vgmstream : (Nat → sample_t) → Nat → VGMSTREAM σ → (Nat → sample_t) × VGMSTREAM σ)
    (vg : VGMSTREAM (layered_layout_data σ)) (cs : List (VGMSTREAM σ))
    (interleave_buf buffer : Nat → sample_t) (N : Nat) : List (Nat × Nat × Nat) :=
  loop_accesses render_vgmstream vg.channels N N 0
    { buffer := buffer, interleave_buf := interleave_buf, children := cs,
      current_sample := vg.current_sample, events := [] }

/-- The `setup_vgmstream` call an event records: the index of the layer. -/
def Event.setup_call : Event → Option Nat
  | Event.setup_vgmstream layer => some layer
  | _ => none

/-! ## Lemmas -/

theorem layer_of_layers {data : layered_layout_data σ} {ls : List (Option (VGMSTREAM σ))}
    (hl : data.layers = some ls) (i : Nat) : data.layer i = ls[i]? := by
  simp [layered_layout_data.layer, hl]

theorem store_layers {data : layered_layout_data σ} {ls : List (Option (VGMSTREAM σ))}
    (hl : data.layers = some ls) (i : Nat) (l : VGMSTREAM σ) :
    (data.store i l).layers = some (ls.set i (some l)) := by
  simp [layered_layout_data.store, hl]

theorem setup_loop_fails (setup_vgmstream : VGMSTREAM σ → VGMSTREAM σ) (k : Nat) :
    ∀ (remaining i : Nat) (data : layered_layout_data σ) (ev : List Event)
      (ls : List (Option (VGMSTREAM σ))),
      data.layers = some ls → i ≤ k → k < i + remaining →
      (∀ j, j < i → ∃ l, ls[j]? = some (some l)) →
      (∃ slot, ls[k]? = some slot ∧ BadSlot slot) →
      ∃ data1 ev1, setup_loop setup_vgmstream remaining i data ev = some (0, data1, ev1) := by
  intro remaining
  induction remaining with
  | zero => intro i data ev ls _ h1 h2; omega
  | succ n ih =>
    intro i data ev ls hl hik hk hprev hbad
    obtain ⟨slot, hslot, hb⟩ := hbad
    have hklen : k < ls.length := by
      rcases Nat.lt_or_ge k ls.length with h | h
      · exact h
      · rw [List.getElem?_eq_none h] at hslot; cases hslot
    have hilen : i < ls.length := by omega
    unfold setup_loop
    rw [layer_of_layers hl, List.getElem?_eq_getElem hilen]
    rcases hcur : ls[i] with _ | l
    · exact ⟨_, _, rfl⟩
    · simp only []
      by_cases h1 : l.num_samples ≤ 0
      · rw [if_pos h1]; exact ⟨_, _, rfl⟩
      · rw [if_neg h1]
        by_cases h2 : l.channels > LAYER_MAX_CHANNELS
        · rw [if_pos h2]; exact ⟨_, _, rfl⟩
        · rw [if_neg h2]
          have hne : i ≠ k := by
            rintro rfl
            rw [List.getElem?_eq_getElem hilen, hcur] at hslot
            cases hslot
            rcases hb with hb | hb
            · exact h1 hb
            · exact h2 hb
          have hw : ∃ w, (if i > 0 then (data.deref (i - 1)).map (setup_warnings i l)
              else some []) = some w := by
            by_cases hi : i > 0
            · obtain ⟨p, hp⟩ := hprev (i - 1) (by omega)
              rw [if_pos hi]
              simp [layered_layout_data.deref, layer_of_layers hl, hp]
            · rw [if_neg hi]; exact ⟨_, rfl⟩
          obtain ⟨w, hw⟩ := hw
          rw [hw]
          simp only []
          apply ih (i + 1) _ _ _ (store_layers hl i _) (by omega) (by omega)
          · intro j hj
            by_cases hji : j = i
            · subst hji
              exact ⟨setup_vgmstream l, by simp [List.getElem?_set, hilen]⟩
            · obtain ⟨p, hp⟩ := hprev j (by omega)
              exact ⟨p, by rw [List.getElem?_set_ne (Ne.symm hji)]; exact hp⟩
          · exact ⟨slot, by rw [List.getElem?_set_ne hne]; exact hslot, hb⟩

theorem setup_loop_ok (setup_vgmstream : VGMSTREAM σ → VGMSTREAM σ) :
    ∀ (todo done : List (VGMSTREAM σ)) (data : layered_layout_data σ) (ev : List Event),
      data.layers = some ((done ++ todo).map some) →
      (∀ c ∈ todo, 0 < c.num_samples ∧ c.channels ≤ LAYER_MAX_CHANNELS) →
      ∃ ev1, setup_loop setup_vgmstream todo.length done.length data ev =
        some (1, { data with layers := some ((done ++ todo.map setup_vgmstream).map some) }, ev1) := by
  intro todo
  induction todo with
  | nil =>
    intro done data ev hl _
    refine ⟨ev, ?_⟩
    simp only [List.length_nil, setup_loop, List.map_nil]
    rw [← hl]
  | cons c rest ih =>
    intro done data ev hl hok
    have hc := hok c (List.mem_cons_self _ _)
    simp only [List.length_cons]
    unfold setup_loop
    have hget : ((done ++ c :: rest).map some)[done.length]? = some (some c) := by
      rw [List.map_append, List.getElem?_append_right (by simp)]
      simp
    rw [layer_of_layers hl, hget]
    simp only []
    rw [if_neg (by omega), if_neg (by omega)]
    have hw : ∃ w, (if done.length > 0 then
        (data.deref (done.length - 1)).map (setup_warnings done.length c)
        else some []) = some w := by
      by_cases hi : done.length > 0
      · rw [if_pos hi]
        have hlt : done.length - 1 < done.length := by omega
        have : ((done ++ c :: rest).map some)[done.length - 1]? =
            some (some done[done.length - 1]) := by
          rw [List.getElem?_eq_getElem (by simp; omega)]
          simp [List.getElem_append_left, hi]
        refine ⟨setup_warnings done.length c done[done.length - 1], ?_⟩
        rw [layered_layout_data.deref, layer_of_layers hl, this]
        rfl
      · rw [if_neg hi]; exact ⟨_, rfl⟩
    obtain ⟨w, hw⟩ := hw
    rw [hw]
    simp only []
    have hl2 : (data.store done.length (setup_vgmstream c)).layers =
        some (((done ++ [setup_vgmstream c]) ++ rest).map some) := by
      rw [store_layers hl]
      simp [List.set_append_right]
    obtain ⟨ev1, h⟩ := ih (done ++ [setup_vgmstream c]) _ (ev ++ w ++ [Event.setup_vgmstream done.length])
      hl2 (fun c1 h1 => hok c1 (List.mem_cons_of_mem _ h1))
    refine ⟨ev1, ?_⟩
    simp only [List.length_append, List.length_singleton] at h
    rw [h]
    simp [layered_layout_data.store]

theorem populated_layer {data : layered_layout_data σ} {cs : List (VGMSTREAM σ)}
    (h : Populated data cs) (i : Nat) : data.layer i = (cs[i]?).map some := by
  rw [layer_of_layers h.2]
  simp

theorem populated_deref {data : layered_layout_data σ} {cs : List (VGMSTREAM σ)}
    (h : Populated data cs) (i : Nat) : data.deref i = cs[i]? := by
  rw [layered_layout_data.deref, populated_layer h]
  cases cs[i]? <;> rfl

theorem populated_count {data : layered_layout_data σ} {cs : List (VGMSTREAM σ)}
    (h : Populated data cs) : data.layer_count.toNat = cs.length := by
  rw [h.1]; simp

theorem all_loop_snoc (cs : List (VGMSTREAM σ)) (c : VGMSTREAM σ) :
    all_loop (cs ++ [c]) = if all_loop cs ≠ 0 ∧ c.loop_flag = 0 then 0 else all_loop cs := by
  unfold all_loop
  by_cases h1 : ∀ x ∈ cs, x.loop_flag ≠ 0
  · by_cases h2 : c.loop_flag = 0
    · have : ¬ ∀ x ∈ cs ++ [c], x.loop_flag ≠ 0 := fun hh => hh c (by simp) h2
      rw [if_neg this, if_pos h1, if_pos ⟨by decide, h2⟩]
    · have : ∀ x ∈ cs ++ [c], x.loop_flag ≠ 0 := by
        intro x hx
        rcases List.mem_append.1 hx with hx | hx
        · exact h1 x hx
        · rw [List.mem_singleton.1 hx]; exact h2
      rw [if_pos this, if_pos h1, if_neg (by simp [h2])]
  · have : ¬ ∀ x ∈ cs ++ [c], x.loop_flag ≠ 0 :=
      fun hh => h1 (fun x hx => hh x (List.mem_append_left _ hx))
    rw [if_neg this, if_neg h1]
    simp

theorem totals_prefix {data : layered_layout_data σ} {cs : List (VGMSTREAM σ)}
    (h : Populated data cs) :
    ∀ n, n ≤ cs.length →
      (List.range n).foldlM
        (fun (acc : Nat × Int) i =>
          (data.deref i).map (fun l =>
            (acc.1 + l.channels, if acc.2 ≠ 0 ∧ l.loop_flag = 0 then 0 else acc.2)))
        (0, 1) =
      some ((((cs.take n).map (fun c => c.channels)).sum), all_loop (cs.take n)) := by
  intro n
  induction n with
  | zero => intro _; simp [all_loop]
  | succ n ih =>
    intro hn
    have hlt : n < cs.length := by omega
    rw [List.range_succ, List.foldlM_append, ih (by omega)]
    simp only [Option.bind_eq_bind, Option.some_bind, List.foldlM_cons, List.foldlM_nil]
    rw [populated_deref h, List.getElem?_eq_getElem hlt]
    simp only [Option.map_some', Option.some_bind, Option.pure_def]
    rw [List.take_succ, List.getElem?_eq_getElem hlt]
    simp only [Option.toList_some, List.map_append, List.map_cons, List.map_nil,
      List.sum_append, List.sum_cons, List.sum_nil, Nat.add_zero]
    rw [all_loop_snoc]

theorem totals_populated {data : layered_layout_data σ} {cs : List (VGMSTREAM σ)}
    (h : Populated data cs) :
    allocate_layered_totals data = some ((cs.map (fun c => c.channels)).sum, all_loop cs) := by
  unfold allocate_layered_totals
  rw [populated_count h, totals_prefix h cs.length (Nat.le_refl _), List.take_length]

theorem all_loop_ne_zero (cs : List (VGMSTREAM σ)) :
    all_loop cs ≠ 0 ↔ ∀ c ∈ cs, c.loop_flag ≠ 0 := by
  unfold all_loop
  by_cases h : ∀ x ∈ cs, x.loop_flag ≠ 0
  · rw [if_pos h]; exact ⟨fun _ => h, fun _ => by decide⟩
  · rw [if_neg h]; exact ⟨fun hh => absurd rfl hh, fun hh => absurd hh h⟩

/-! ### The sample-copy loops -/

theorem index_inj {T a b r q : Nat} (hr : r < T) (hq : q < T) (h : a * T + r = b * T + q) :
    a = b ∧ r = q := by
  have hT : 0 < T := by omega
  have h1 : (a * T + r) / T = a := by
    rw [Nat.add_comm, Nat.add_mul_div_right _ _ hT, Nat.div_eq_of_lt hr, Nat.zero_add]
  have h2 : (b * T + q) / T = b := by
    rw [Nat.add_comm, Nat.add_mul_div_right _ _ hT, Nat.div_eq_of_lt hq, Nat.zero_add]
  have hab : a = b := by rw [← h1, ← h2, h]
  subst hab
  exact ⟨rfl, by omega⟩

theorem mix_channel_succ (ibuf : Nat → sample_t) (sw n T c ch lch : Nat)
    (buffer : Nat → sample_t) :
    mix_channel ibuf sw (n + 1) T c ch lch buffer =
      Function.update (mix_channel ibuf sw n T c ch lch buffer) ((sw + n) * T + ch)
        (ibuf (n * c + lch)) := by
  simp [mix_channel, layer_sample, buffer_sample, List.range_succ, List.foldl_append]

theorem mix_channel_other (ibuf : Nat → sample_t) (sw T c ch lch : Nat)
    (buffer : Nat → sample_t) (j : Nat) :
    ∀ n, (∀ s, s < n → j ≠ (sw + s) * T + ch) →
      mix_channel ibuf sw n T c ch lch buffer j = buffer j := by
  intro n
  induction n with
  | zero => intro _; simp [mix_channel]
  | succ n ih =>
    intro h
    rw [mix_channel_succ, Function.update_noteq (h n (Nat.lt_succ_self n))]
    exact ih (fun s hs => h s (Nat.lt_succ_of_lt hs))

theorem mix_channel_hit (ibuf : Nat → sample_t) (sw T c ch lch : Nat)
    (buffer : Nat → sample_t) (hch : ch < T) (s : Nat) :
    ∀ n, s < n →
      mix_channel ibuf sw n T c ch lch buffer ((sw + s) * T + ch) = ibuf (s * c + lch) := by
  intro n
  induction n with
  | zero => intro h; omega
  | succ n ih =>
    intro h
    rw [mix_channel_succ]
    by_cases hs : s = n
    · subst hs; rw [Function.update_same]
    · have hne : (sw + s) * T + ch ≠ (sw + n) * T + ch := by
        intro he
        have := (index_inj hch hch he).1
        omega
      rw [Function.update_noteq hne]
      exact ih (by omega)

/-- The loop `for layer_ch`, run for the first `m` channels of a layer with
`layer_channels = c`. -/
theorem mix_layer_upto (ibuf : Nat → sample_t) (sw n T c ch0 : Nat) (buffer : Nat → sample_t) :
    ∀ m,
      ((List.range m).foldl
        (fun (st : (Nat → sample_t) × Nat) layer_ch =>
          (mix_channel ibuf sw n T c st.2 layer_ch st.1, st.2 + 1)) (buffer, ch0)).2 = ch0 + m ∧
      (∀ j, (∀ s, s < n → ∀ k, k < m → j ≠ (sw + s) * T + (ch0 + k)) →
        ((List.range m).foldl
          (fun (st : (Nat → sample_t) × Nat) layer_ch =>
            (mix_channel ibuf sw n T c st.2 layer_ch st.1, st.2 + 1)) (buffer, ch0)).1 j =
          buffer j) ∧
      (ch0 + m ≤ T → ∀ s, s < n → ∀ k, k < m →
        ((List.range m).foldl
          (fun (st : (Nat → sample_t) × Nat) layer_ch =>
            (mix_channel ibuf sw n T c st.2 layer_ch st.1, st.2 + 1)) (buffer, ch0)).1
          ((sw + s) * T + (ch0 + k)) = ibuf (s * c + k)) := by
  intro m
  induction m with
  | zero =>
    refine ⟨by simp, fun j _ => by simp, fun _ s _ k hk => by omega⟩
  | succ m ih =>
    obtain ⟨ih1, ih2, ih3⟩ := ih
    rw [List.range_succ, List.foldl_append]
    simp only [List.foldl_cons, List.foldl_nil]
    rw [ih1]
    refine ⟨by omega, ?_, ?_⟩
    · intro j hj
      rw [mix_channel_other _ _ _ _ _ _ _ _ n (fun s hs => hj s hs m (Nat.lt_succ_self m))]
      exact ih2 j (fun s hs k hk => hj s hs k (Nat.lt_succ_of_lt hk))
    · intro hT s hs k hk
      by_cases hkm : k = m
      · subst hkm
        exact mix_channel_hit _ _ _ _ _ _ _ (by omega) s n hs
      · rw [mix_channel_other]
        · exact ih3 (by omega) s hs k (by omega)
        · intro s1 _ he
          have := (index_inj (by omega) (by omega) he).2
          omega

theorem mix_layer_ch (ibuf : Nat → sample_t) (sw n T c ch0 : Nat) (buffer : Nat → sample_t) :
    (mix_layer ibuf sw n T c (buffer, ch0)).2 = ch0 + c :=
  (mix_layer_upto ibuf sw n T c ch0 buffer c).1

theorem mix_layer_other (ibuf : Nat → sample_t) (sw n T c ch0 : Nat) (buffer : Nat → sample_t)
    (j : Nat) (h : ∀ s, s < n → ∀ k, k < c → j ≠ (sw + s) * T + (ch0 + k)) :
    (mix_layer ibuf sw n T c (buffer, ch0)).1 j = buffer j :=
  (mix_layer_upto ibuf sw n T c ch0 buffer c).2.1 j h

theorem mix_layer_hit (ibuf : Nat → sample_t) (sw n T c ch0 : Nat) (buffer : Nat → sample_t)
    (hT : ch0 + c ≤ T) (s : Nat) (hs : s < n) (k : Nat) (hk : k < c) :
    (mix_layer ibuf sw n T c (buffer, ch0)).1 ((sw + s) * T + (ch0 + k)) = ibuf (s * c + k) :=
  (mix_layer_upto ibuf sw n T c ch0 buffer c).2.2 hT s hs k hk

/-! ### One pass over the layers, on a populated composite -/

theorem render_layers_from
    (rv : (Nat → sample_t) → Nat → VGMSTREAM σ → (Nat → sample_t) × VGMSTREAM σ)
    (sw n : Nat) :
    ∀ (todo done : List (VGMSTREAM σ)) (st : render_state σ) (ch : Nat),
      st.vgmstream.layout_data.layers = some ((done ++ todo).map some) →
      (List.range' done.length todo.length).foldlM (render_layer rv sw n) (st, ch) =
        some
          ({ buffer :=
               (pass_layers rv sw n st.vgmstream.channels done.length todo
                 st.interleave_buf st.buffer ch).buffer
             interleave_buf :=
               (pass_layers rv sw n st.vgmstream.channels done.length todo
                 st.interleave_buf st.buffer ch).interleave_buf
             vgmstream :=
               { st.vgmstream with
                 layout_data :=
                   { st.vgmstream.layout_data with
                     layers := some ((done ++
                       (pass_layers rv sw n st.vgmstream.channels done.length todo
                         st.interleave_buf st.buffer ch).children).map some) } }
             events := st.events ++
               (pass_layers rv sw n st.vgmstream.channels done.length todo
                 st.interleave_buf st.buffer ch).events },
           (pass_layers rv sw n st.vgmstream.channels done.length todo
             st.interleave_buf st.buffer ch).ch) := by
  intro todo
  induction todo with
  | nil =>
    intro done st ch hl
    obtain ⟨buffer, ibuf, vg, events⟩ := st
    obtain ⟨c1, c2, c3, c4, c5, c6, c7, c8, c9, c10, ld⟩ := vg
    obtain ⟨lc, layers⟩ := ld
    simp only [List.append_nil] at hl
    subst hl
    simp [pass_layers]
  | cons c rest ih =>
    intro done st ch hl
    have hget : ((done ++ c :: rest).map some)[done.length]? = some (some c) := by
      rw [List.map_append, List.getElem?_append_right (by simp)]
      simp
    have hderef : st.vgmstream.layout_data.deref done.length = some c := by
      rw [layered_layout_data.deref, layer_of_layers hl, hget]
    simp only [List.length_cons, List.range'_succ, List.foldlM_cons]
    simp only [render_layer, hderef, Option.bind_eq_bind, Option.some_bind]
    have hl2 : (st.vgmstream.layout_data.store done.length (rv st.interleave_buf n c).2).layers =
        some (((done ++ [(rv st.interleave_buf n c).2]) ++ rest).map some) := by
      rw [store_layers hl]
      simp [List.set_append_right]
    have := ih (done ++ [(rv st.interleave_buf n c).2])
      { buffer := (mix_layer (rv st.interleave_buf n c).1 sw n st.vgmstream.channels c.channels
          (st.buffer, ch)).1
        interleave_buf := (rv st.interleave_buf n c).1
        vgmstream :=
          { st.vgmstream with
            layout_data := st.vgmstream.layout_data.store done.length (rv st.interleave_buf n c).2 }
        events := st.events ++ [Event.render_vgmstream done.length n (rv st.interleave_buf n c).1] }
      (mix_layer (rv st.interleave_buf n c).1 sw n st.vgmstream.channels c.channels
          (st.buffer, ch)).2 hl2
    simp only [List.length_append, List.length_singleton] at this
    rw [this]
    simp [pass_layers, layered_layout_data.store]

theorem total_channels_cons (c : VGMSTREAM σ) (cs : List (VGMSTREAM σ)) :
    total_channels (c :: cs) = c.channels + total_channels cs := by
  simp [total_channels]

theorem channel_offset_zero (cs : List (VGMSTREAM σ)) : channel_offset cs 0 = 0 := by
  simp [channel_offset, total_channels]

theorem channel_offset_succ (c : VGMSTREAM σ) (cs : List (VGMSTREAM σ)) (i : Nat) :
    channel_offset (c :: cs) (i + 1) = c.channels + channel_offset cs i := by
  simp [channel_offset, total_channels]

section pass
variable (rv : (Nat → sample_t) → Nat → VGMSTREAM σ → (Nat → sample_t) × VGMSTREAM σ)
variable (sw n T : Nat)

theorem pass_layers_length :
    ∀ (cs : List (VGMSTREAM σ)) (i0 : Nat) (ibuf buffer : Nat → sample_t) (ch : Nat),
      (pass_layers rv sw n T i0 cs ibuf buffer ch).children.length = cs.length ∧
      (pass_layers rv sw n T i0 cs ibuf buffer ch).events.length = cs.length := by
  intro cs
  induction cs with
  | nil => intro i0 ibuf buffer ch; simp [pass_layers]
  | cons c cs ih =>
    intro i0 ibuf buffer ch
    simp only [pass_layers, List.length_cons]
    exact ⟨by rw [(ih _ _ _ _).1], by rw [(ih _ _ _ _).2]⟩

theorem pass_layers_ch :
    ∀ (cs : List (VGMSTREAM σ)) (i0 : Nat) (ibuf buffer : Nat → sample_t) (ch : Nat),
      (pass_layers rv sw n T i0 cs ibuf buffer ch).ch = ch + total_channels cs := by
  intro cs
  induction cs with
  | nil => intro i0 ibuf buffer ch; simp [pass_layers, total_channels]
  | cons c cs ih =>
    intro i0 ibuf buffer ch
    simp only [pass_layers]
    rw [ih, mix_layer_ch, total_channels_cons]
    omega

/-- The children, the calls and the scratch array after a pass do not depend on the
output buffer, on the position in it, or on the composite's channel count. -/
theorem pass_layers_indep (sw1 T1 : Nat) :
    ∀ (cs : List (VGMSTREAM σ)) (i0 : Nat) (ibuf buffer buffer1 : Nat → sample_t) (ch ch1 : Nat),
      (pass_layers rv sw n T i0 cs ibuf buffer ch).children =
        (pass_layers rv sw1 n T1 i0 cs ibuf buffer1 ch1).children ∧
      (pass_layers rv sw n T i0 cs ibuf buffer ch).events =
        (pass_layers rv sw1 n T1 i0 cs ibuf buffer1 ch1).events ∧
      (pass_layers rv sw n T i0 cs ibuf buffer ch).interleave_buf =
        (pass_layers rv sw1 n T1 i0 cs ibuf buffer1 ch1).interleave_buf := by
  intro cs
  induction cs with
  | nil => intro i0 ibuf buffer buffer1 ch ch1; simp [pass_layers]
  | cons c cs ih =>
    intro i0 ibuf buffer buffer1 ch ch1
    simp only [pass_layers]
    obtain ⟨h1, h2, h3⟩ := ih (i0 + 1) (rv ibuf n c).1
      (mix_layer (rv ibuf n c).1 sw n T c.channels (buffer, ch)).1
      (mix_layer (rv ibuf n c).1 sw1 n T1 c.channels (buffer1, ch1)).1
      (mix_layer (rv ibuf n c).1 sw n T c.channels (buffer, ch)).2
      (mix_layer (rv ibuf n c).1 sw1 n T1 c.channels (buffer1, ch1)).2
    exact ⟨by rw [h1], by rw [h2], h3⟩

theorem pass_layers_other :
    ∀ (cs : List (VGMSTREAM σ)) (i0 : Nat) (ibuf buffer : Nat → sample_t) (ch : Nat) (j : Nat),
      (∀ s, s < n → ∀ r, r < total_channels cs → j ≠ (sw + s) * T + (ch + r)) →
      (pass_layers rv sw n T i0 cs ibuf buffer ch).buffer j = buffer j := by
  intro cs
  induction cs with
  | nil => intro i0 ibuf buffer ch j _; simp [pass_layers]
  | cons c cs ih =>
    intro i0 ibuf buffer ch j h
    simp only [pass_layers]
    rw [total_channels_cons] at h
    rw [ih]
    · exact mix_layer_other _ _ _ _ _ _ _ _ (fun s hs k hk => h s hs k (by omega))
    · intro s hs r hr
      rw [mix_layer_ch]
      have := h s hs (c.channels + r) (by omega)
      intro he; apply this; rw [he]; omega

theorem pass_layers_hit :
    ∀ (cs : List (VGMSTREAM σ)) (i0 : Nat) (ibuf buffer : Nat → sample_t) (ch : Nat)
      (i : Nat) (c : VGMSTREAM σ), cs[i]? = some c →
      ∃ ib,
        (pass_layers rv sw n T i0 cs ibuf buffer ch).children[i]? = some (rv ib n c).2 ∧
        (pass_layers rv sw n T i0 cs ibuf buffer ch).events[i]? =
          some (Event.render_vgmstream (i0 + i) n (rv ib n c).1) ∧
        (ch + total_channels cs ≤ T → ∀ s, s < n → ∀ k, k < c.channels →
          (pass_layers rv sw n T i0 cs ibuf buffer ch).buffer
            ((sw + s) * T + (ch + (channel_offset cs i + k))) = (rv ib n c).1 (s * c.channels + k)) := by
  intro cs
  induction cs with
  | nil => intro i0 ibuf buffer ch i c h; simp at h
  | cons c0 cs ih =>
    intro i0 ibuf buffer ch i c h
    cases i with
    | zero =>
      simp only [List.getElem?_cons_zero, Option.some.injEq] at h
      subst h
      refine ⟨ibuf, by simp [pass_layers], by simp [pass_layers], ?_⟩
      intro hT s hs k hk
      rw [total_channels_cons] at hT
      simp only [pass_layers, channel_offset_zero, Nat.zero_add]
      rw [pass_layers_other, mix_layer_hit _ _ _ _ _ _ _ (by omega) s hs k hk]
      intro s1 _ r hr he
      rw [mix_layer_ch] at he
      have := (index_inj (by omega) (by omega) he).2
      omega
    | succ i =>
      simp only [List.getElem?_cons_succ] at h
      obtain ⟨ib, h1, h2, h3⟩ := ih (i0 + 1) (rv ibuf n c0).1
        (mix_layer (rv ibuf n c0).1 sw n T c0.channels (buffer, ch)).1
        (mix_layer (rv ibuf n c0).1 sw n T c0.channels (buffer, ch)).2 i c h
      refine ⟨ib, by simpa [pass_layers] using h1, ?_, ?_⟩
      · simp only [pass_layers, List.getElem?_cons_succ]
        rw [h2]
        congr 2
        omega
      · intro hT s hs k hk
        rw [total_channels_cons] at hT
        simp only [pass_layers, channel_offset_succ]
        rw [mix_layer_ch] at h3 ⊢
        have := h3 (by omega) s hs k hk
        rw [← this]
        congr 2
        omega

end pass

/-! ### The `while` loop on a populated composite -/

theorem render_loop_populated
    (rv : (Nat → sample_t) → Nat → VGMSTREAM σ → (Nat → sample_t) × VGMSTREAM σ)
    (vg : VGMSTREAM (layered_layout_data σ)) (N : Nat) :
    ∀ (fuel sw : Nat) (st : loop_state σ),
      st.children ≠ [] → vg.layout_data.layer_count = st.children.length → N - sw ≤ fuel →
      render_loop rv (N : Int) fuel sw (st.to_render vg) =
        some ((pass_loop rv vg.channels N fuel sw st).to_render vg) := by
  intro fuel
  induction fuel with
  | zero =>
    intro sw st _ _ hf
    have : ¬ ((sw : Int) < (N : Int)) := by omega
    unfold render_loop
    rw [if_neg this]
    simp [pass_loop]
  | succ fuel ih =>
    intro sw st hne hlc hf
    unfold render_loop
    by_cases hlt : sw < N
    · have hlt1 : (sw : Int) < (N : Int) := by omega
      rw [if_pos hlt1]
      have hn : (if (LAYER_BUF_SIZE : Int) > (N : Int) - (sw : Int)
          then ((N : Int) - (sw : Int)).toNat else LAYER_BUF_SIZE) =
          min LAYER_BUF_SIZE (N - sw) := by
        unfold LAYER_BUF_SIZE
        split <;> omega
      simp only [hn]
      have hrl := render_layers_from rv sw (min LAYER_BUF_SIZE (N - sw)) st.children []
        (st.to_render vg) 0 (by simp [loop_state.to_render])
      have hcount : (st.to_render vg).vgmstream.layout_data.layer_count.toNat =
          st.children.length := by
        simp [loop_state.to_render, hlc]
      unfold render_layers
      rw [hcount, List.range_eq_range']
      simp only [List.length_nil] at hrl
      rw [hrl]
      simp only [List.nil_append]
      have hlen := (pass_layers_length rv sw (min LAYER_BUF_SIZE (N - sw)) vg.channels
        st.children 0 st.interleave_buf st.buffer 0).1
      obtain ⟨l0, rest, hp⟩ : ∃ l0 rest, (pass_layers rv sw (min LAYER_BUF_SIZE (N - sw))
          vg.channels 0 st.children st.interleave_buf st.buffer 0).children = l0 :: rest := by
        cases hc : (pass_layers rv sw (min LAYER_BUF_SIZE (N - sw))
          vg.channels 0 st.children st.interleave_buf st.buffer 0).children with
        | nil =>
          rw [hc] at hlen
          have : st.children.length ≠ 0 := fun h => hne (List.length_eq_zero.1 h)
          simp at hlen
          omega
        | cons l0 rest => exact ⟨l0, rest, rfl⟩
      have hch : (st.to_render vg).vgmstream.channels = vg.channels := rfl
      have hib : (st.to_render vg).interleave_buf = st.interleave_buf := rfl
      have hbf : (st.to_render vg).buffer = st.buffer := rfl
      simp only [hch, hib, hbf]
      have hderef : layered_layout_data.deref
          { (st.to_render vg).vgmstream.layout_data with
            layers := some ((pass_layers rv sw (min LAYER_BUF_SIZE (N - sw))
              vg.channels 0 st.children st.interleave_buf st.buffer 0).children.map some) } 0 =
          some l0 := by
        simp [layered_layout_data.deref, layered_layout_data.layer, hp]
      simp only [hderef]
      have hstep := ih (sw + min LAYER_BUF_SIZE (N - sw))
        { buffer := (pass_layers rv sw (min LAYER_BUF_SIZE (N - sw))
            vg.channels 0 st.children st.interleave_buf st.buffer 0).buffer
          interleave_buf := (pass_layers rv sw (min LAYER_BUF_SIZE (N - sw))
            vg.channels 0 st.children st.interleave_buf st.buffer 0).interleave_buf
          children := (pass_layers rv sw (min LAYER_BUF_SIZE (N - sw))
            vg.channels 0 st.children st.interleave_buf st.buffer 0).children
          current_sample := l0.current_sample
          events := st.events ++ (pass_layers rv sw (min LAYER_BUF_SIZE (N - sw))
            vg.channels 0 st.children st.interleave_buf st.buffer 0).events }
        (by simp [hp]) (by simp only; rw [hlen]; exact hlc)
        (by unfold LAYER_BUF_SIZE; omega)
      simp only [pass_loop, if_pos hlt, hp, List.head?_cons, Option.map_some', Option.getD_some]
      rw [hp] at hstep
      rw [← hstep]
      rfl
    · have hlt1 : ¬ ((sw : Int) < (N : Int)) := by omega
      rw [if_neg hlt1]
      simp [pass_loop, hlt]

theorem frame_index_lt {a b T r : Nat} (h : a < b) (hr : r < T) : a * T + r < b * T := by
  have h1 : (a + 1) * T ≤ b * T := Nat.mul_le_mul_right T h
  have h2 : (a + 1) * T = a * T + T := by rw [Nat.add_mul, Nat.one_mul]
  omega

theorem frame_index_ge {a b T : Nat} (h : a ≤ b) (r : Nat) : a * T ≤ b * T + r := by
  have h1 : a * T ≤ b * T := Nat.mul_le_mul_right T h
  omega

theorem total_channels_congr {cs cs1 : List (VGMSTREAM σ)}
    (h : cs1.map (fun c => c.channels) = cs.map (fun c => c.channels)) :
    total_channels cs1 = total_channels cs := by
  unfold total_channels; rw [h]

theorem channel_offset_congr {cs cs1 : List (VGMSTREAM σ)}
    (h : cs1.map (fun c => c.channels) = cs.map (fun c => c.channels)) (i : Nat) :
    channel_offset cs1 i = channel_offset cs i := by
  unfold channel_offset total_channels
  rw [List.map_take, List.map_take, h]

theorem channel_offset_add_lt :
    ∀ (cs : List (VGMSTREAM σ)) (i : Nat) (c : VGMSTREAM σ), cs[i]? = some c →
      channel_offset cs i + c.channels ≤ total_channels cs := by
  intro cs
  induction cs with
  | nil => intro i c h; simp at h
  | cons c0 cs ih =>
    intro i c h
    cases i with
    | zero =>
      simp only [List.getElem?_cons_zero, Option.some.injEq] at h
      subst h
      rw [channel_offset_zero, total_channels_cons]
      omega
    | succ i =>
      simp only [List.getElem?_cons_succ] at h
      rw [channel_offset_succ, total_channels_cons]
      have := ih i c h
      omega

/-- Every output channel below the total belongs to exactly one layer. -/
theorem channel_locate :
    ∀ (cs : List (VGMSTREAM σ)) (r : Nat), r < total_channels cs →
      ∃ i c k, cs[i]? = some c ∧ k < c.channels ∧ r = channel_offset cs i + k := by
  intro cs
  induction cs with
  | nil => intro r h; simp [total_channels] at h
  | cons c0 cs ih =>
    intro r h
    rw [total_channels_cons] at h
    by_cases hr : r < c0.channels
    · exact ⟨0, c0, r, by simp, hr, by rw [channel_offset_zero]; omega⟩
    · obtain ⟨i, c, k, h1, h2, h3⟩ := ih (r - c0.channels) (by omega)
      exact ⟨i + 1, c, k, by simpa using h1, h2, by rw [channel_offset_succ]; omega⟩

section loop
variable (rv : (Nat → sample_t) → Nat → VGMSTREAM σ → (Nat → sample_t) × VGMSTREAM σ)

theorem pass_layers_channels (hch : KeepsChannels rv) (sw n T : Nat) :
    ∀ (cs : List (VGMSTREAM σ)) (i0 : Nat) (ibuf buffer : Nat → sample_t) (ch : Nat),
      (pass_layers rv sw n T i0 cs ibuf buffer ch).children.map (fun c => c.channels) =
        cs.map (fun c => c.channels) := by
  intro cs
  induction cs with
  | nil => intro i0 ibuf buffer ch; simp [pass_layers]
  | cons c cs ih =>
    intro i0 ibuf buffer ch
    simp only [pass_layers, List.map_cons]
    rw [ih, hch]

theorem pass_loop_done (T N : Nat) (fuel sw : Nat) (st : loop_state σ) (h : ¬ sw < N) :
    pass_loop rv T N fuel sw st = st := by
  cases fuel with
  | zero => rfl
  | succ fuel => simp [pass_loop, h]

theorem pass_loop_step (T N : Nat) (fuel sw : Nat) (st : loop_state σ) (h : sw < N) :
    pass_loop rv T N (fuel + 1) sw st =
      pass_loop rv T N fuel (sw + min LAYER_BUF_SIZE (N - sw))
        { buffer := (pass_layers rv sw (min LAYER_BUF_SIZE (N - sw)) T 0 st.children
            st.interleave_buf st.buffer 0).buffer
          interleave_buf := (pass_layers rv sw (min LAYER_BUF_SIZE (N - sw)) T 0 st.children
            st.interleave_buf st.buffer 0).interleave_buf
          children := (pass_layers rv sw (min LAYER_BUF_SIZE (N - sw)) T 0 st.children
            st.interleave_buf st.buffer 0).children
          current_sample := ((pass_layers rv sw (min LAYER_BUF_SIZE (N - sw)) T 0 st.children
            st.interleave_buf st.buffer 0).children.head?.map
              (fun l => l.current_sample)).getD st.current_sample
          events := st.events ++ (pass_layers rv sw (min LAYER_BUF_SIZE (N - sw)) T 0
            st.children st.interleave_buf st.buffer 0).events } := by
  simp [pass_loop, h]

/-- Frames outside `[samples_written, N)` are not touched by the loop. -/
theorem pass_loop_other (hch : KeepsChannels rv) (T N : Nat) :
    ∀ (fuel sw : Nat) (st : loop_state σ) (j : Nat),
      T = total_channels st.children → (j < sw * T ∨ N * T ≤ j) →
      (pass_loop rv T N fuel sw st).buffer j = st.buffer j := by
  intro fuel
  induction fuel with
  | zero => intro sw st j _ _; rfl
  | succ fuel ih =>
    intro sw st j hT hj
    by_cases hlt : sw < N
    · rw [pass_loop_step rv T N fuel sw st hlt]
      have hn : sw + min LAYER_BUF_SIZE (N - sw) ≤ N := by omega
      rw [ih]
      · simp only []
        apply pass_layers_other
        intro s hs r hr he
        rw [← hT] at hr
        rw [Nat.zero_add] at he
        rcases hj with hj | hj
        · have := frame_index_ge (Nat.le_add_right sw s) (T := T) r
          omega
        · have h1 : (sw + s) * T + r < N * T := frame_index_lt (by omega) hr
          omega
      · simp only []
        rw [total_channels_congr (pass_layers_channels rv hch _ _ _ _ _ _ _ _)]
        exact hT
      · rcases hj with hj | hj
        · left
          have := frame_index_ge (Nat.le_add_right sw (min LAYER_BUF_SIZE (N - sw))) (T := T) 0
          omega
        · exact Or.inr hj
    · rw [pass_loop_done rv T N _ sw st hlt]

/-- The children, the calls, the scratch array and `current_sample` after the loop do
not depend on the content of the output buffer. -/
theorem pass_loop_indep (T N : Nat) :
    ∀ (fuel sw : Nat) (st st1 : loop_state σ),
      st.children = st1.children → st.interleave_buf = st1.interleave_buf →
      st.current_sample = st1.current_sample → st.events = st1.events →
      (pass_loop rv T N fuel sw st).children = (pass_loop rv T N fuel sw st1).children ∧
      (pass_loop rv T N fuel sw st).events = (pass_loop rv T N fuel sw st1).events ∧
      (pass_loop rv T N fuel sw st).current_sample =
        (pass_loop rv T N fuel sw st1).current_sample := by
  intro fuel
  induction fuel with
  | zero => intro sw st st1 h1 _ h3 h4; exact ⟨h1, h4, h3⟩
  | succ fuel ih =>
    intro sw st st1 h1 h2 h3 h4
    by_cases hlt : sw < N
    · rw [pass_loop_step rv T N fuel sw st hlt, pass_loop_step rv T N fuel sw st1 hlt]
      obtain ⟨e1, e2, e3⟩ := pass_layers_indep rv sw (min LAYER_BUF_SIZE (N - sw)) T sw T
        st1.children 0 st1.interleave_buf st.buffer st1.buffer 0 0
      apply ih
      · simp only []; rw [h1, h2, e1]
      · simp only []; rw [h1, h2, e3]
      · simp only []; rw [h1, h2, h3, e1]
      · simp only []; rw [h1, h2, h4, e2]
    · rw [pass_loop_done rv T N _ sw st hlt, pass_loop_done rv T N _ sw st1 hlt]
      exact ⟨h1, h4, h3⟩

/-- The calls issued before the loop stay at the front of the list. -/
theorem pass_loop_events (T N : Nat) :
    ∀ (fuel sw : Nat) (st : loop_state σ),
      ∃ evs, (pass_loop rv T N fuel sw st).events = st.events ++ evs := by
  intro fuel
  induction fuel with
  | zero => intro sw st; exact ⟨[], by simp [pass_loop]⟩
  | succ fuel ih =>
    intro sw st
    by_cases hlt : sw < N
    · rw [pass_loop_step rv T N fuel sw st hlt]
      obtain ⟨evs, h⟩ := ih (sw + min LAYER_BUF_SIZE (N - sw)) _
      rw [h]
      exact ⟨_, List.append_assoc _ _ _⟩
    · rw [pass_loop_done rv T N _ sw st hlt]
      exact ⟨[], by simp⟩

/-- After at least one pass the composite's `current_sample` is that of the first
child. -/
theorem pass_loop_current (T N : Nat) :
    ∀ (fuel sw : Nat) (st : loop_state σ), N - sw ≤ fuel → sw < N →
      ∀ l0 rest, (pass_loop rv T N fuel sw st).children = l0 :: rest →
        (pass_loop rv T N fuel sw st).current_sample = l0.current_sample := by
  intro fuel
  induction fuel with
  | zero => intro sw st h1 h2; omega
  | succ fuel ih =>
    intro sw st hf hlt l0 rest
    rw [pass_loop_step rv T N fuel sw st hlt]
    by_cases hlt2 : sw + min LAYER_BUF_SIZE (N - sw) < N
    · exact ih _ _ (by unfold LAYER_BUF_SIZE; omega) hlt2 l0 rest
    · rw [pass_loop_done rv T N _ _ _ hlt2]
      intro h
      simp only [] at h
      simp [h]

end loop

section loop_hit
variable (rv : (Nat → sample_t) → Nat → VGMSTREAM σ → (Nat → sample_t) × VGMSTREAM σ)

/-- Frame `f` of the output, channel `k` of layer `i`, is the sample that the decode
call of layer `i` in the pass containing `f` left in the scratch array. -/
theorem pass_loop_hit (hch : KeepsChannels rv) (T N : Nat) :
    ∀ (fuel sw : Nat) (st : loop_state σ),
      T = total_channels st.children → N - sw ≤ fuel →
      ∀ f, sw ≤ f → f < N → ∀ i c, st.children[i]? = some c → ∀ k, k < c.channels →
      ∃ decoded,
        (pass_loop rv T N fuel sw st).events[st.events.length +
            ((f - sw) / LAYER_BUF_SIZE) * st.children.length + i]? =
          some (Event.render_vgmstream i
            (min LAYER_BUF_SIZE (N - (sw + LAYER_BUF_SIZE * ((f - sw) / LAYER_BUF_SIZE))))
            decoded) ∧
        (pass_loop rv T N fuel sw st).buffer (f * T + (channel_offset st.children i + k)) =
          decoded (((f - sw) % LAYER_BUF_SIZE) * c.channels + k) := by
  intro fuel
  induction fuel with
  | zero => intro sw st _ h1 f h2 h3; omega
  | succ fuel ih =>
    intro sw st hT hf f hsf hfN i c hget k hk
    have hlt : sw < N := by omega
    rw [pass_loop_step rv T N fuel sw st hlt]
    obtain ⟨ib, hc1, he1, hb1⟩ := pass_layers_hit rv sw (min LAYER_BUF_SIZE (N - sw)) T
      st.children 0 st.interleave_buf st.buffer 0 i c hget
    obtain ⟨hlen1, hlen2⟩ := pass_layers_length rv sw (min LAYER_BUF_SIZE (N - sw)) T
      st.children 0 st.interleave_buf st.buffer 0
    have hchan := pass_layers_channels rv hch sw (min LAYER_BUF_SIZE (N - sw)) T
      st.children 0 st.interleave_buf st.buffer 0
    have hi : i < st.children.length := by
      rcases Nat.lt_or_ge i st.children.length with h | h
      · exact h
      · rw [List.getElem?_eq_none h] at hget; cases hget
    have hoff : channel_offset st.children i + k < T := by
      have := channel_offset_add_lt st.children i c hget
      omega
    generalize hp : pass_layers rv sw (min LAYER_BUF_SIZE (N - sw)) T 0 st.children
      st.interleave_buf st.buffer 0 = p at hc1 he1 hb1 hlen1 hlen2 hchan ⊢
    by_cases hA : f < sw + min LAYER_BUF_SIZE (N - sw)
    · -- the frame belongs to this pass
      have hq : (f - sw) / LAYER_BUF_SIZE = 0 :=
        Nat.div_eq_of_lt (by unfold LAYER_BUF_SIZE at hA ⊢; omega)
      have hm : (f - sw) % LAYER_BUF_SIZE = f - sw :=
        Nat.mod_eq_of_lt (by unfold LAYER_BUF_SIZE at hA ⊢; omega)
      refine ⟨(rv ib (min LAYER_BUF_SIZE (N - sw)) c).1, ?_, ?_⟩
      · obtain ⟨evs, hev⟩ := pass_loop_events rv T N fuel (sw + min LAYER_BUF_SIZE (N - sw))
          { buffer := p.buffer, interleave_buf := p.interleave_buf, children := p.children,
            current_sample := (p.children.head?.map (fun l => l.current_sample)).getD
              st.current_sample,
            events := st.events ++ p.events }
        rw [hev, hq]
        simp only [Nat.zero_mul, Nat.add_zero, Nat.mul_zero]
        rw [List.getElem?_append_left (by simp only [List.length_append]; omega),
          List.getElem?_append_right (by omega)]
        simp only [Nat.add_sub_cancel_left]
        rw [he1, Nat.zero_add]
      · rw [pass_loop_other rv hch T N fuel _ _ _
          (by simp only []; rw [total_channels_congr hchan]; exact hT)
          (Or.inl (frame_index_lt hA hoff))]
        simp only []
        have := hb1 (by rw [← hT, Nat.zero_add]) (f - sw) (by omega) k hk
        rw [Nat.zero_add, Nat.add_sub_cancel' hsf] at this
        rw [this, hm]
    · -- the frame belongs to a later pass
      have hn : min LAYER_BUF_SIZE (N - sw) = LAYER_BUF_SIZE := by omega
      rw [hn] at hA hc1 he1 hb1 ⊢
      have hk1 : k < (rv ib LAYER_BUF_SIZE c).2.channels := by rw [hch]; exact hk
      obtain ⟨decoded, h1, h2⟩ := ih (sw + LAYER_BUF_SIZE)
        { buffer := p.buffer, interleave_buf := p.interleave_buf, children := p.children,
          current_sample := (p.children.head?.map (fun l => l.current_sample)).getD
            st.current_sample,
          events := st.events ++ p.events }
        (by simp only []; rw [total_channels_congr hchan]; exact hT)
        (by unfold LAYER_BUF_SIZE at hA ⊢; omega) f (by omega) hfN i _ hc1 k hk1
      simp only [] at h1 h2
      have hq : (f - sw) / LAYER_BUF_SIZE = (f - (sw + LAYER_BUF_SIZE)) / LAYER_BUF_SIZE + 1 := by
        unfold LAYER_BUF_SIZE at hA ⊢; omega
      have hm : (f - sw) % LAYER_BUF_SIZE = (f - (sw + LAYER_BUF_SIZE)) % LAYER_BUF_SIZE := by
        unfold LAYER_BUF_SIZE at hA ⊢; omega
      refine ⟨decoded, ?_, ?_⟩
      · rw [hq]
        rw [List.length_append, hlen1, hlen2] at h1
        have e1 : st.events.length + st.children.length +
            (f - (sw + LAYER_BUF_SIZE)) / LAYER_BUF_SIZE * st.children.length + i =
            st.events.length +
            ((f - (sw + LAYER_BUF_SIZE)) / LAYER_BUF_SIZE + 1) * st.children.length + i := by
          rw [Nat.add_mul, Nat.one_mul]; omega
        have e2 : N - (sw + LAYER_BUF_SIZE +
            LAYER_BUF_SIZE * ((f - (sw + LAYER_BUF_SIZE)) / LAYER_BUF_SIZE)) =
            N - (sw + LAYER_BUF_SIZE * ((f - (sw + LAYER_BUF_SIZE)) / LAYER_BUF_SIZE + 1)) := by
          rw [Nat.mul_add, Nat.mul_one]; omega
        rw [← e1, ← e2]
        exact h1
      · rw [channel_offset_congr hchan, hch] at h2
        rw [h2, hm]

end loop_hit

section render
variable (rv : (Nat → sample_t) → Nat → VGMSTREAM σ → (Nat → sample_t) × VGMSTREAM σ)

/-- On a populated composite with at least one layer `render_vgmstream_layered`
returns, and its result is the one of `pass_loop`. -/
theorem render_layered_populated (vg : VGMSTREAM (layered_layout_data σ))
    (cs : List (VGMSTREAM σ)) (hpop : Populated vg.layout_data cs) (hne : cs ≠ [])
    (ibuf buffer : Nat → sample_t) (N : Nat) :
    render_vgmstream_layered rv ibuf buffer (N : Int) vg =
      some ((pass_loop rv vg.channels N N 0
        { buffer := buffer, interleave_buf := ibuf, children := cs,
          current_sample := vg.current_sample, events := [] }).to_render vg) := by
  have hinit : ({ buffer := buffer, interleave_buf := ibuf, vgmstream := vg, events := [] } :
      render_state σ) =
      loop_state.to_render vg
        { buffer := buffer, interleave_buf := ibuf, children := cs,
          current_sample := vg.current_sample, events := [] } := by
    obtain ⟨c1, c2, c3, c4, c5, c6, c7, c8, c9, c10, ld⟩ := vg
    obtain ⟨lc, layers⟩ := ld
    have := hpop.2
    simp only at this
    subst this
    rfl
  unfold render_vgmstream_layered
  rw [Int.toNat_ofNat, hinit]
  exact render_loop_populated rv vg N N 0 _ hne hpop.1 (by omega)

end render

/-! ### Deterministic children -/

section det
variable (rv : (Nat → sample_t) → Nat → VGMSTREAM σ → (Nat → sample_t) × VGMSTREAM σ)

theorem pass_layers_children_det (hdet : Deterministic rv) (sw n T : Nat) :
    ∀ (cs : List (VGMSTREAM σ)) (i0 : Nat) (ibuf buffer : Nat → sample_t) (ch : Nat),
      (pass_layers rv sw n T i0 cs ibuf buffer ch).children = cs.map (decode_state rv n) := by
  intro cs
  induction cs with
  | nil => intro i0 ibuf buffer ch; simp [pass_layers]
  | cons c cs ih =>
    intro i0 ibuf buffer ch
    simp only [pass_layers, List.map_cons]
    rw [ih, decode_state, hdet.state_indep ibuf (fun _ => 0)]

theorem pass_loop_det (hdet : Deterministic rv) (T N : Nat) :
    ∀ (fuel sw : Nat) (st : loop_state σ),
      T = total_channels st.children → N - sw ≤ fuel → sw < N →
      (pass_loop rv T N fuel sw st).children = st.children.map (decode_state rv (N - sw)) ∧
      ∀ f, sw ≤ f → f < N → ∀ i c, st.children[i]? = some c → ∀ k, k < c.channels →
        (pass_loop rv T N fuel sw st).buffer (f * T + (channel_offset st.children i + k)) =
          decode_samples rv (N - sw) c ((f - sw) * c.channels + k) := by
  intro fuel
  induction fuel with
  | zero => intro sw st _ h1 h2; omega
  | succ fuel ih =>
    intro sw st hT hf hlt
    have hch : KeepsChannels rv := hdet.channels
    rw [pass_loop_step rv T N fuel sw st hlt]
    have hchild := pass_layers_children_det rv hdet sw (min LAYER_BUF_SIZE (N - sw)) T
      st.children 0 st.interleave_buf st.buffer 0
    have hchan := pass_layers_channels rv hch sw (min LAYER_BUF_SIZE (N - sw)) T
      st.children 0 st.interleave_buf st.buffer 0
    have hhit := pass_layers_hit rv sw (min LAYER_BUF_SIZE (N - sw)) T
      st.children 0 st.interleave_buf st.buffer 0
    generalize hp : pass_layers rv sw (min LAYER_BUF_SIZE (N - sw)) T 0 st.children
      st.interleave_buf st.buffer 0 = p at hchild hchan hhit ⊢
    generalize hn : min LAYER_BUF_SIZE (N - sw) = n at hchild hchan hhit ⊢
    have hnpos : 0 < n := by unfold LAYER_BUF_SIZE at hn; omega
    have hnle : sw + n ≤ N := by omega
    -- the samples of this pass
    have hfirst : ∀ f, sw ≤ f → f < sw + n → ∀ i c, st.children[i]? = some c →
        ∀ k, k < c.channels →
        p.buffer (f * T + (channel_offset st.children i + k)) =
          decode_samples rv n c ((f - sw) * c.channels + k) := by
      intro f hsf hfn i c hget k hk
      obtain ⟨ib, _, _, hb⟩ := hhit i c hget
      have := hb (by rw [← hT, Nat.zero_add]) (f - sw) (by omega) k hk
      rw [Nat.zero_add, Nat.add_sub_cancel' hsf] at this
      rw [this, decode_samples]
      exact hdet.samples_indep _ _ _ _ _ (frame_index_lt (by omega) hk)
    by_cases hmore : sw + n < N
    · obtain ⟨ih1, ih2⟩ := ih (sw + n)
        { buffer := p.buffer, interleave_buf := p.interleave_buf, children := p.children,
          current_sample := (p.children.head?.map (fun l => l.current_sample)).getD
            st.current_sample,
          events := st.events ++ p.events }
        (by simp only []; rw [total_channels_congr hchan]; exact hT)
        (by unfold LAYER_BUF_SIZE at hn; omega) hmore
      simp only [] at ih1 ih2
      have hsum : N - sw = n + (N - (sw + n)) := by omega
      refine ⟨?_, ?_⟩
      · rw [ih1, hchild, List.map_map, hsum]
        apply List.map_congr_left
        intro c _
        simp only [Function.comp, decode_state]
        exact hdet.state_add _ _ _ _
      · intro f hsf hfN i c hget k hk
        have hoff : channel_offset st.children i + k < T := by
          have := channel_offset_add_lt st.children i c hget
          omega
        by_cases hA : f < sw + n
        · rw [pass_loop_other rv hch T N fuel _ _ _
            (by simp only []; rw [total_channels_congr hchan]; exact hT)
            (Or.inl (frame_index_lt hA hoff))]
          simp only []
          rw [hfirst f hsf hA i c hget k hk, hsum, decode_samples, decode_samples]
          exact (hdet.samples_fst _ _ _ _ _ (frame_index_lt (by omega) hk)).symm
        · have hget1 : p.children[i]? = some (decode_state rv n c) := by
            rw [hchild, List.getElem?_map, hget]; rfl
          have hc1 : (decode_state rv n c).channels = c.channels := hdet.channels _ _ _
          have := ih2 f (by omega) hfN i _ hget1 k (by rw [hc1]; exact hk)
          rw [channel_offset_congr hchan, hc1] at this
          rw [this, hsum, decode_samples, decode_samples, decode_state]
          have hidx : (f - sw) * c.channels + k =
              n * c.channels + ((f - (sw + n)) * c.channels + k) := by
            have : f - sw = n + (f - (sw + n)) := by omega
            rw [this, Nat.add_mul]; omega
          rw [hidx]
          exact (hdet.samples_snd _ _ _ _ _ (frame_index_lt (by omega) hk)).symm
    · have hlast : N - sw = n := by omega
      rw [pass_loop_done rv T N _ _ _ hmore, hlast]
      refine ⟨hchild, ?_⟩
      intro f hsf hfN i c hget k hk
      exact hfirst f hsf (by omega) i c hget k hk

end det

section det_render
variable (rv : (Nat → sample_t) → Nat → VGMSTREAM σ → (Nat → sample_t) × VGMSTREAM σ)

theorem advance_child_channels (hdet : Deterministic rv) (n : Nat) (c : VGMSTREAM σ) :
    (advance_child rv n c).channels = c.channels := by
  unfold advance_child
  split
  · rfl
  · exact hdet.channels _ _ _

theorem advance_child_add (hdet : Deterministic rv) (n1 n2 : Nat) (c : VGMSTREAM σ) :
    advance_child rv n2 (advance_child rv n1 c) = advance_child rv (n1 + n2) c := by
  unfold advance_child
  by_cases h1 : n1 = 0
  · subst h1; simp
  · by_cases h2 : n2 = 0
    · subst h2; simp [h1]
    · rw [if_neg h2, if_neg h1, if_neg (by omega)]
      exact hdet.state_add _ _ _ _

theorem decode_samples_snd (hdet : Deterministic rv) (n1 n2 : Nat) (c : VGMSTREAM σ) (j : Nat)
    (hj : j < n2 * c.channels) :
    decode_samples rv (n1 + n2) c (n1 * c.channels + j) =
      decode_samples rv n2 (advance_child rv n1 c) j := by
  unfold advance_child
  by_cases h1 : n1 = 0
  · subst h1; simp
  · rw [if_neg h1]
    exact hdet.samples_snd _ _ _ _ _ hj

theorem advance_children_channels (hdet : Deterministic rv) (n : Nat) (cs : List (VGMSTREAM σ)) :
    (cs.map (advance_child rv n)).map (fun c => c.channels) = cs.map (fun c => c.channels) := by
  rw [List.map_map]
  apply List.map_congr_left
  intro c _
  exact advance_child_channels rv hdet n c

/-- With deterministic children the result of `render_vgmstream_layered` is explicit:
each child is advanced by `N` frames, and frame `f` of layer `i` holds the samples
that a single decode of `N` frames from that child produces for frame `f`. -/
theorem render_layered_det (hdet : Deterministic rv) (vg : VGMSTREAM (layered_layout_data σ))
    (cs : List (VGMSTREAM σ)) (hpop : Populated vg.layout_data cs) (hne : cs ≠ [])
    (hT : vg.channels = total_channels cs) (ibuf buffer : Nat → sample_t) (N : Nat) :
    ∃ st, render_vgmstream_layered rv ibuf buffer (N : Int) vg = some st ∧
      st.vgmstream = advance_composite rv N vg cs ∧
      (∀ j, N * vg.channels ≤ j → st.buffer j = buffer j) ∧
      (∀ f, f < N → ∀ i c, cs[i]? = some c → ∀ k, k < c.channels →
        st.buffer (f * vg.channels + (channel_offset cs i + k)) =
          decode_samples rv N c (f * c.channels + k)) := by
  refine ⟨_, render_layered_populated rv vg cs hpop hne ibuf buffer N, ?_, ?_, ?_⟩
  · by_cases hN : N = 0
    · subst hN
      have hid : cs.map (advance_child rv 0) = cs := by
        rw [List.map_congr_left (g := id) (fun c _ => by simp [advance_child]), List.map_id]
      simp only [pass_loop, loop_state.to_render, advance_composite, if_true, hid]
    · obtain ⟨h1, _⟩ := pass_loop_det rv hdet vg.channels N N 0
        { buffer := buffer, interleave_buf := ibuf, children := cs,
          current_sample := vg.current_sample, events := [] } hT (by omega) (by omega)
      simp only [Nat.sub_zero] at h1
      have hadv : cs.map (advance_child rv N) = cs.map (decode_state rv N) := by
        apply List.map_congr_left
        intro c _
        simp [advance_child, hN]
      obtain ⟨c0, rest, hcs⟩ : ∃ c0 rest, cs = c0 :: rest := by
        cases cs with
        | nil => exact absurd rfl hne
        | cons c0 rest => exact ⟨c0, rest, rfl⟩
      have hcur := pass_loop_current rv vg.channels N N 0
        { buffer := buffer, interleave_buf := ibuf, children := cs,
          current_sample := vg.current_sample, events := [] } (by omega) (by omega)
        (decode_state rv N c0) (rest.map (decode_state rv N)) (by rw [h1, hcs]; rfl)
      simp only [loop_state.to_render, advance_composite, if_neg hN]
      rw [hcur, h1, hadv, hcs]
      rfl
  · intro j hj
    exact pass_loop_other rv hdet.channels vg.channels N N 0 _ j hT (Or.inr hj)
  · intro f hf i c hget k hk
    obtain ⟨_, h2⟩ := pass_loop_det rv hdet vg.channels N N 0
      { buffer := buffer, interleave_buf := ibuf, children := cs,
        current_sample := vg.current_sample, events := [] } hT (by omega) (by omega)
    have := h2 f (Nat.zero_le f) hf i c hget k hk
    simpa using this

end det_render

/-! ### The example streams -/

theorem test_composite_populated (children : List (VGMSTREAM Int)) :
    Populated (test_composite children).layout_data children :=
  ⟨rfl, rfl⟩

theorem constant_decoder_keeps : KeepsChannels constant_decoder :=
  fun _ _ _ => rfl

theorem ramp_decoder_deterministic : Deterministic ramp_decoder where
  channels := fun _ _ _ => rfl
  state_indep := fun _ _ _ _ => rfl
  samples_indep := fun _ _ _ _ _ _ => rfl
  state_add := by
    intro b n1 n2 v
    simp only [ramp_decoder, Nat.cast_add]
    congr 1
    omega
  samples_fst := fun _ _ _ _ _ _ => rfl
  samples_snd := by
    intro b n1 n2 v j hj
    have hpos : 0 < v.channels := by
      rcases Nat.eq_zero_or_pos v.channels with h | h
      · rw [h] at hj; simp at hj
      · exact h
    simp only [ramp_decoder]
    rw [Nat.add_comm (n1 * v.channels) j, Nat.add_mul_div_right _ _ hpos, Nat.cast_add]
    ring


/-! ## The claims -/

/-- C1: on a populated composite whose channel count is the sum of its layers'
channel counts, after `render_vgmstream_layered` of `N` frames the output sample of
frame `f < N` at channel `channel_offset cs i + k` (layer `i`, its channel `k`) is
the sample at index `(f % 512) * c_i + k` of the scratch array as the decode call of
layer `i` in the pass containing `f` left it (that call is number
`(f / 512) * layer_count + i` of the render). -/
theorem render_layered_samples
    (rv : (Nat → sample_t) → Nat → VGMSTREAM σ → (Nat → sample_t) × VGMSTREAM σ)
    (hch : KeepsChannels rv) (vg : VGMSTREAM (layered_layout_data σ))
    (cs : List (VGMSTREAM σ)) (hpop : Populated vg.layout_data cs) (hne : cs ≠ [])
    (hT : vg.channels = total_channels cs) (ibuf buffer : Nat → sample_t) (N : Nat) :
    ∃ st, render_vgmstream_layered rv ibuf buffer (N : Int) vg = some st ∧
      ∀ f, f < N → ∀ i c, cs[i]? = some c → ∀ k, k < c.channels →
        ∃ decoded,
          st.events[(f / LAYER_BUF_SIZE) * cs.length + i]? =
            some (Event.render_vgmstream i
              (min LAYER_BUF_SIZE (N - LAYER_BUF_SIZE * (f / LAYER_BUF_SIZE))) decoded) ∧
          st.buffer (f * vg.channels + (channel_offset cs i + k)) =
            decoded ((f % LAYER_BUF_SIZE) * c.channels + k) := by
  refine ⟨_, render_layered_populated rv vg cs hpop hne ibuf buffer N, ?_⟩
  intro f hf i c hget k hk
  obtain ⟨decoded, h1, h2⟩ := pass_loop_hit rv hch vg.channels N N 0
    { buffer := buffer, interleave_buf := ibuf, children := cs,
      current_sample := vg.current_sample, events := [] } hT (by omega) f (Nat.zero_le f) hf
    i c hget k hk
  simp only [List.length_nil, Nat.zero_add, Nat.sub_zero] at h1 h2
  exact ⟨decoded, h1, h2⟩

theorem render_layered_samples_witness :
    (render_vgmstream_layered constant_decoder (fun _ => 0) (fun _ => 0) ((4 : Nat) : Int)
        (test_composite test_pair)).map (fun st => (List.range 8).map st.buffer) =
      some [10, 20, 10, 20, 10, 20, 10, 20] ∧
    ∃ st, render_vgmstream_layered constant_decoder (fun _ => 0) (fun _ => 0) ((4 : Nat) : Int)
        (test_composite test_pair) = some st ∧
      ∀ f, f < 4 → ∀ i c, test_pair[i]? = some c → ∀ k, k < c.channels →
        ∃ decoded,
          st.events[(f / LAYER_BUF_SIZE) * test_pair.length + i]? =
            some (Event.render_vgmstream i
              (min LAYER_BUF_SIZE (4 - LAYER_BUF_SIZE * (f / LAYER_BUF_SIZE))) decoded) ∧
          st.buffer (f * (test_composite test_pair).channels + (channel_offset test_pair i + k)) =
            decoded ((f % LAYER_BUF_SIZE) * c.channels + k) :=
  ⟨by decide,
    render_layered_samples constant_decoder constant_decoder_keeps (test_composite test_pair)
      test_pair (test_composite_populated test_pair) (by simp [test_pair]) rfl (fun _ => 0) (fun _ => 0) 4⟩

/-- C2: chunking is observationally transparent.  With deterministic children, a
render of `N1` frames into `buffer` followed by a render of `N2` frames into
`buffer + N1 * T` leaves the same output, the same composite (every child state and
`current_sample`) as one render of `N1 + N2` frames. -/
theorem render_layered_split
    (rv : (Nat → sample_t) → Nat → VGMSTREAM σ → (Nat → sample_t) × VGMSTREAM σ)
    (hdet : Deterministic rv) (vg : VGMSTREAM (layered_layout_data σ))
    (cs : List (VGMSTREAM σ)) (hpop : Populated vg.layout_data cs) (hne : cs ≠ [])
    (hT : vg.channels = total_channels cs) (ibuf ibuf1 ibuf2 buffer : Nat → sample_t)
    (N1 N2 : Nat) :
    ∃ st st1 st2,
      render_vgmstream_layered rv ibuf buffer ((N1 + N2 : Nat) : Int) vg = some st ∧
      render_vgmstream_layered rv ibuf1 buffer (N1 : Int) vg = some st1 ∧
      render_vgmstream_layered rv ibuf2 (fun j => st1.buffer (N1 * vg.channels + j)) (N2 : Int)
        st1.vgmstream = some st2 ∧
      (∀ j, (if j < N1 * vg.channels then st1.buffer j
          else st2.buffer (j - N1 * vg.channels)) = st.buffer j) ∧
      st2.vgmstream = st.vgmstream := by
  obtain ⟨st, hst, hvg, hfr, hval⟩ :=
    render_layered_det rv hdet vg cs hpop hne hT ibuf buffer (N1 + N2)
  obtain ⟨st1, hst1, hvg1, hfr1, hval1⟩ :=
    render_layered_det rv hdet vg cs hpop hne hT ibuf1 buffer N1
  have hchan := advance_children_channels rv hdet N1 cs
  have hpop1 : Populated st1.vgmstream.layout_data (cs.map (advance_child rv N1)) := by
    rw [hvg1]
    exact ⟨by simp [advance_composite, hpop.1], rfl⟩
  have hch1 : st1.vgmstream.channels = vg.channels := by rw [hvg1]; rfl
  have hT1 : st1.vgmstream.channels = total_channels (cs.map (advance_child rv N1)) := by
    rw [hch1, hT, total_channels_congr hchan]
  obtain ⟨st2, hst2, hvg2, hfr2, hval2⟩ :=
    render_layered_det rv hdet st1.vgmstream (cs.map (advance_child rv N1)) hpop1
      (by simpa using hne) hT1 ibuf2 (fun j => st1.buffer (N1 * vg.channels + j)) N2
  rw [hch1] at hfr2 hval2
  refine ⟨st, st1, st2, hst, hst1, hst2, ?_, ?_⟩
  · intro j
    by_cases hj : j < (N1 + N2) * vg.channels
    · have hTpos : 0 < vg.channels := by
        rcases Nat.eq_zero_or_pos vg.channels with h | h
        · rw [h] at hj; simp at hj
        · exact h
      have hf : j / vg.channels < N1 + N2 := by
        apply Nat.div_lt_of_lt_mul
        rwa [Nat.mul_comm]
      have hr : j % vg.channels < total_channels cs := by
        rw [← hT]; exact Nat.mod_lt _ hTpos
      obtain ⟨i, c, k, hget, hk, hrk⟩ := channel_locate cs _ hr
      have hoff : channel_offset cs i + k < vg.channels := by
        rw [← hrk]; exact Nat.mod_lt _ hTpos
      have hj2 : j = (j / vg.channels) * vg.channels + (channel_offset cs i + k) := by
        rw [← hrk, Nat.mul_comm]; exact (Nat.div_add_mod j vg.channels).symm
      generalize j / vg.channels = f at hf hj2
      subst hj2
      rw [hval f hf i c hget k hk]
      by_cases hA : f < N1
      · rw [if_pos (frame_index_lt hA hoff), hval1 f hA i c hget k hk]
        exact (hdet.samples_fst _ _ _ _ _ (frame_index_lt hA hk)).symm
      · have hge : N1 * vg.channels ≤ f * vg.channels + (channel_offset cs i + k) :=
          frame_index_ge (by omega) _
        rw [if_neg (by omega)]
        have hsub : f * vg.channels + (channel_offset cs i + k) - N1 * vg.channels =
            (f - N1) * vg.channels + (channel_offset cs i + k) := by
          have : f = N1 + (f - N1) := by omega
          rw [this, Nat.add_mul]
          simp only [Nat.add_sub_cancel_left]
          omega
        have hget1 : (cs.map (advance_child rv N1))[i]? = some (advance_child rv N1 c) := by
          rw [List.getElem?_map, hget]; rfl
        have hc1 := advance_child_channels rv hdet N1 c
        have := hval2 (f - N1) (by omega) i _ hget1 k (by rw [hc1]; exact hk)
        rw [channel_offset_congr hchan, hc1] at this
        rw [hsub, this]
        have hidx : f * c.channels + k = N1 * c.channels + ((f - N1) * c.channels + k) := by
          have : f = N1 + (f - N1) := by omega
          rw [this, Nat.add_mul]
          simp only [Nat.add_sub_cancel_left]
          omega
        rw [hidx]
        exact (decode_samples_snd rv hdet N1 N2 c _
          (frame_index_lt (by omega) hk)).symm
    · have hge : (N1 + N2) * vg.channels ≤ j := by omega
      have hge1 : N1 * vg.channels ≤ j := by
        have := frame_index_ge (Nat.le_add_right N1 N2) (T := vg.channels) 0
        omega
      rw [if_neg (by omega), hfr j hge, hfr2 _ (by rw [Nat.add_mul] at hge; omega)]
      show st1.buffer (N1 * vg.channels + (j - N1 * vg.channels)) = buffer j
      rw [Nat.add_sub_cancel' hge1]
      exact hfr1 j hge1
  · rw [hvg2, hvg, hvg1]
    have hadd : (cs.map (advance_child rv N1)).map (advance_child rv N2) =
        cs.map (advance_child rv (N1 + N2)) := by
      rw [List.map_map]
      apply List.map_congr_left
      intro c _
      exact advance_child_add rv hdet N1 N2 c
    unfold advance_composite
    rw [hadd]
    by_cases h2 : N2 = 0
    · subst h2
      simp
    · rw [if_neg h2, if_neg (by omega : ¬ N1 + N2 = 0)]
      obtain ⟨c0, rest, hcs⟩ : ∃ c0 rest, cs = c0 :: rest := by
        cases cs with
        | nil => exact absurd rfl hne
        | cons c0 rest => exact ⟨c0, rest, rfl⟩
      subst hcs
      simp

theorem render_layered_split_witness :
    (render_vgmstream_layered ramp_decoder (fun _ => 0) (fun _ => 0) ((2 + 3 : Nat) : Int)
        (test_composite test_trio)).map (fun st => (List.range 25).map st.buffer) =
      some [100, 100, 200, 300, 300, 101, 101, 201, 301, 301, 102, 102, 202, 302, 302,
        103, 103, 203, 303, 303, 104, 104, 204, 304, 304] ∧
    ∃ st st1 st2,
      render_vgmstream_layered ramp_decoder (fun _ => 0) (fun _ => 0) ((2 + 3 : Nat) : Int)
        (test_composite test_trio) = some st ∧
      render_vgmstream_layered ramp_decoder (fun _ => 1) (fun _ => 0) ((2 : Nat) : Int)
        (test_composite test_trio) = some st1 ∧
      render_vgmstream_layered ramp_decoder (fun _ => 2)
        (fun j => st1.buffer (2 * (test_composite test_trio).channels + j)) ((3 : Nat) : Int)
        st1.vgmstream = some st2 ∧
      (∀ j, (if j < 2 * (test_composite test_trio).channels then st1.buffer j
          else st2.buffer (j - 2 * (test_composite test_trio).channels)) = st.buffer j) ∧
      st2.vgmstream = st.vgmstream :=
  ⟨by decide,
    render_layered_split ramp_decoder ramp_decoder_deterministic (test_composite test_trio)
      test_trio (test_composite_populated test_trio) (by simp [test_trio]) rfl (fun _ => 0) (fun _ => 1)
      (fun _ => 2) (fun _ => 0) 2 3⟩

/-- C3: `init_layout_layered` returns a state (both allocations succeeding) exactly
when `1 ≤ layer_count ≤ 255`; a returned state has the requested `layer_count` and
exactly that many slots, all empty; for `layer_count ≤ 0` or `> 255` it returns
`NULL`, whatever the allocator does. -/
theorem init_layout_layered_spec (layer_count : Int) :
    ((∃ d ev, (init_layout_layered true true layer_count :
        Option (Option (layered_layout_data σ) × List Event)) = some (some d, ev)) ↔
      (1 ≤ layer_count ∧ layer_count ≤ 255)) ∧
    (∀ a b d ev, (init_layout_layered a b layer_count :
        Option (Option (layered_layout_data σ) × List Event)) = some (some d, ev) →
      d.layer_count = layer_count ∧
      ∃ ls, d.layers = some ls ∧ (ls.length : Int) = layer_count ∧ ∀ s ∈ ls, s = none) ∧
    (∀ a b, (layer_count ≤ 0 ∨ layer_count > 255) →
      (init_layout_layered a b layer_count :
        Option (Option (layered_layout_data σ) × List Event)) = some (none, [])) := by
  refine ⟨?_, ?_, ?_⟩
  · constructor
    · rintro ⟨d, ev, h⟩
      by_contra hc
      have : layer_count ≤ 0 ∨ layer_count > 255 := by omega
      simp [init_layout_layered, this, free_layout_layered] at h
    · rintro ⟨h1, h2⟩
      have : ¬ (layer_count ≤ 0 ∨ layer_count > 255) := by omega
      simp [init_layout_layered, this]
  · intro a b d ev h
    by_cases hc : layer_count ≤ 0 ∨ layer_count > 255
    · simp [init_layout_layered, hc, free_layout_layered] at h
    · cases a <;> cases b <;> simp [init_layout_layered, hc, free_layout_layered] at h
      obtain ⟨rfl, rfl⟩ := h
      refine ⟨rfl, _, rfl, ?_, ?_⟩
      · simp; omega
      · intro s hs
        exact List.eq_of_mem_replicate hs
  · intro a b hc
    simp [init_layout_layered, hc, free_layout_layered]

/-- C4: `setup_layout_layered` returns 0 whenever some slot `k < layer_count` is
empty, or holds a child with `num_samples ≤ 0` or with more than
`LAYER_MAX_CHANNELS = 6` channels. -/
theorem setup_layout_layered_rejects (setup_vgmstream : VGMSTREAM σ → VGMSTREAM σ)
    (data : layered_layout_data σ) (ls : List (Option (VGMSTREAM σ))) (k : Nat)
    (slot : Option (VGMSTREAM σ)) (hl : data.layers = some ls)
    (hk : (k : Int) < data.layer_count) (hslot : ls[k]? = some slot) (hbad : BadSlot slot) :
    ∃ data1 ev, setup_layout_layered setup_vgmstream data = some (0, data1, ev) :=
  setup_loop_fails setup_vgmstream k data.layer_count.toNat 0 data [] ls hl (Nat.zero_le k)
    (by omega) (fun j hj => absurd hj (Nat.not_lt_zero j)) ⟨slot, hslot, hbad⟩

theorem setup_layout_layered_rejects_witness :
    (∃ data1 ev, setup_layout_layered id
      ({ layer_count := 2, layers := some [some (test_child 1 44100 0 1 10), none] } :
        layered_layout_data Int) = some (0, data1, ev)) ∧
    (∃ data1 ev, setup_layout_layered id
      ({ layer_count := 2,
         layers := some [some (test_child 1 44100 0 1 10),
           some { test_child 1 44100 0 1 20 with num_samples := 0 }] } :
        layered_layout_data Int) = some (0, data1, ev)) ∧
    (∃ data1 ev, setup_layout_layered id
      ({ layer_count := 2,
         layers := some [some (test_child 1 44100 0 1 10), some (test_child 7 44100 0 1 20)] } :
        layered_layout_data Int) = some (0, data1, ev)) :=
  ⟨setup_layout_layered_rejects id _ _ 1 none rfl (by decide) rfl trivial,
    setup_layout_layered_rejects id _ _ 1 _ rfl (by decide) rfl (Or.inl (by decide)),
    setup_layout_layered_rejects id _ _ 1 _ rfl (by decide) rfl (Or.inr (by decide))⟩

/-- C5: when every slot holds a child with `num_samples > 0` and at most 6 channels,
`setup_layout_layered` returns 1 (with every child passed through `setup_vgmstream`),
whatever the sample rates and coding types of the children are. -/
theorem setup_layout_layered_accepts (setup_vgmstream : VGMSTREAM σ → VGMSTREAM σ)
    (data : layered_layout_data σ) (cs : List (VGMSTREAM σ)) (hpop : Populated data cs)
    (hok : ∀ c ∈ cs, 0 < c.num_samples ∧ c.channels ≤ LAYER_MAX_CHANNELS) :
    ∃ ev, setup_layout_layered setup_vgmstream data =
      some (1, { data with layers := some ((cs.map setup_vgmstream).map some) }, ev) := by
  have := setup_loop_ok setup_vgmstream cs [] data [] hpop.2 hok
  simp only [List.length_nil, List.nil_append] at this
  unfold setup_layout_layered
  rw [populated_count hpop]
  exact this

theorem setup_layout_layered_accepts_witness :
    (setup_layout_layered id (test_composite test_trio).layout_data).map
        (fun r => (r.1, r.2.2.length)) = some (1, 7) ∧
    ∃ ev, setup_layout_layered id (test_composite test_trio).layout_data =
      some (1, { (test_composite test_trio).layout_data with
        layers := some ((test_trio.map id).map some) }, ev) :=
  ⟨by decide,
    setup_layout_layered_accepts id (test_composite test_trio).layout_data test_trio
      (test_composite_populated test_trio) (by decide)⟩

/-- C6: on a populated composite the channel count that `allocate_layered_vgmstream`
passes to `allocate_vgmstream` is the sum of the channel counts of all children: the
loop leaves `channels` at that sum, and the allocator is consulted with no other
channel count. -/
theorem allocate_layered_channels (data : layered_layout_data σ) (cs : List (VGMSTREAM σ))
    (hpop : Populated data cs) :
    (allocate_layered_totals data).map Prod.fst = some (cs.map (fun c => c.channels)).sum ∧
    ∀ allocate_vgmstream, allocate_layered_vgmstream allocate_vgmstream data =
      allocate_layered_vgmstream
        (fun channels loop_flag =>
          if channels = (cs.map (fun c => c.channels)).sum
          then allocate_vgmstream channels loop_flag else none) data := by
  refine ⟨by rw [totals_populated hpop]; rfl, ?_⟩
  intro alloc
  simp only [allocate_layered_vgmstream, totals_populated hpop, if_true]

theorem allocate_layered_channels_witness :
    (allocate_layered_totals (test_composite test_trio).layout_data).map Prod.fst =
      some 5 ∧
    ((allocate_layered_totals (test_composite test_trio).layout_data).map Prod.fst =
        some (test_trio.map (fun c => c.channels)).sum ∧
      ∀ allocate_vgmstream,
        allocate_layered_vgmstream allocate_vgmstream (test_composite test_trio).layout_data =
          allocate_layered_vgmstream
            (fun channels loop_flag =>
              if channels = (test_trio.map (fun c => c.channels)).sum
              then allocate_vgmstream channels loop_flag else none)
            (test_composite test_trio).layout_data) :=
  ⟨by decide,
    allocate_layered_channels (test_composite test_trio).layout_data test_trio
      (test_composite_populated test_trio)⟩

/-- C7: on a populated composite the loop flag that `allocate_layered_vgmstream`
computes and passes to `allocate_vgmstream` is non-zero if and only if the loop flag
of every child is non-zero. -/
theorem allocate_layered_loop_flag (data : layered_layout_data σ) (cs : List (VGMSTREAM σ))
    (hpop : Populated data cs) :
    ∃ loop_flag, (allocate_layered_totals data).map Prod.snd = some loop_flag ∧
      (loop_flag ≠ 0 ↔ ∀ c ∈ cs, c.loop_flag ≠ 0) ∧
      ∀ allocate_vgmstream, allocate_layered_vgmstream allocate_vgmstream data =
        allocate_layered_vgmstream
          (fun channels lf => if lf = loop_flag then allocate_vgmstream channels lf else none)
          data := by
  refine ⟨all_loop cs, by rw [totals_populated hpop]; rfl, all_loop_ne_zero cs, ?_⟩
  intro alloc
  simp only [allocate_layered_vgmstream, totals_populated hpop, if_true]

theorem allocate_layered_loop_flag_witness :
    (allocate_layered_totals (test_composite test_trio).layout_data).map Prod.snd = some 0 ∧
    (allocate_layered_totals (test_composite test_pair).layout_data).map Prod.snd = some 1 ∧
    ∃ loop_flag,
      (allocate_layered_totals (test_composite test_trio).layout_data).map Prod.snd =
        some loop_flag ∧
      (loop_flag ≠ 0 ↔ ∀ c ∈ test_trio, c.loop_flag ≠ 0) ∧
      ∀ allocate_vgmstream,
        allocate_layered_vgmstream allocate_vgmstream (test_composite test_trio).layout_data =
          allocate_layered_vgmstream
            (fun channels lf => if lf = loop_flag then allocate_vgmstream channels lf else none)
            (test_composite test_trio).layout_data :=
  ⟨by decide, by decide,
    allocate_layered_loop_flag (test_composite test_trio).layout_data test_trio
      (test_composite_populated test_trio)⟩

/-- C8: on a populated composite with first child `c0`, when `allocate_vgmstream`
succeeds, `allocate_layered_vgmstream` returns a stream whose `sample_rate`,
`coding_type`, `num_samples`, `loop_start_sample` and `loop_end_sample` (and
`meta_type`) are those of `c0`, whose layout is `layout_layered` and whose
`layout_data` is the given state. -/
theorem allocate_layered_first (allocate_vgmstream : Nat → Int → Option (VGMSTREAM Unit))
    (data : layered_layout_data σ) (c0 : VGMSTREAM σ) (rest : List (VGMSTREAM σ))
    (hpop : Populated data (c0 :: rest)) (v : VGMSTREAM Unit)
    (hv : ∀ channels loop_flag, allocate_layered_totals data = some (channels, loop_flag) →
      allocate_vgmstream channels loop_flag = some v) :
    ∃ w, allocate_layered_vgmstream allocate_vgmstream data = some (some w, []) ∧
      w.sample_rate = c0.sample_rate ∧ w.coding_type = c0.coding_type ∧
      w.num_samples = c0.num_samples ∧ w.loop_start_sample = c0.loop_start_sample ∧
      w.loop_end_sample = c0.loop_end_sample ∧ w.meta_type = c0.meta_type ∧
      w.layout_type = layout_t.layout_layered ∧ w.layout_data = data := by
  have h0 : data.deref 0 = some c0 := by rw [populated_deref hpop]; simp
  have ht := totals_populated hpop
  simp only [allocate_layered_vgmstream, ht, hv _ _ ht, h0]
  exact ⟨_, rfl, rfl, rfl, rfl, rfl, rfl, rfl, rfl, rfl⟩

theorem allocate_layered_first_witness :
    ∃ w, allocate_layered_vgmstream test_allocate (test_composite test_trio).layout_data =
        some (some w, []) ∧
      w.sample_rate = (test_child 2 48000 5 1 100).sample_rate ∧
      w.coding_type = (test_child 2 48000 5 1 100).coding_type ∧
      w.num_samples = (test_child 2 48000 5 1 100).num_samples ∧
      w.loop_start_sample = (test_child 2 48000 5 1 100).loop_start_sample ∧
      w.loop_end_sample = (test_child 2 48000 5 1 100).loop_end_sample ∧
      w.meta_type = (test_child 2 48000 5 1 100).meta_type ∧
      w.layout_type = layout_t.layout_layered ∧
      w.layout_data = (test_composite test_trio).layout_data :=
  allocate_layered_first test_allocate (test_composite test_trio).layout_data
    (test_child 2 48000 5 1 100)
    [test_child 1 44100 3 0 200, test_child 2 48000 5 1 300]
    (test_composite_populated test_trio)
    { channels := 5, sample_rate := 0, num_samples := 0, loop_flag := 0,
      loop_start_sample := 0, loop_end_sample := 0, current_sample := 0, coding_type := 0,
      meta_type := 0, layout_type := layout_t.layout_none, layout_data := () }
    (by
      intro channels loop_flag h
      have h2 : allocate_layered_totals (test_composite test_trio).layout_data =
          some (5, 0) := by decide
      rw [h2] at h
      cases h
      rfl)

/-- C9: a render of `N` frames on a populated composite with `T` channels leaves
every output element at an index `≥ N * T` as it was, and overwrites every element
at an index `< N * T`: its final value is the same whatever the buffer held before. -/
theorem render_layered_frame
    (rv : (Nat → sample_t) → Nat → VGMSTREAM σ → (Nat → sample_t) × VGMSTREAM σ)
    (hch : KeepsChannels rv) (vg : VGMSTREAM (layered_layout_data σ))
    (cs : List (VGMSTREAM σ)) (hpop : Populated vg.layout_data cs) (hne : cs ≠ [])
    (hT : vg.channels = total_channels cs) (ibuf buffer buffer1 : Nat → sample_t) (N : Nat) :
    ∃ st st1, render_vgmstream_layered rv ibuf buffer (N : Int) vg = some st ∧
      render_vgmstream_layered rv ibuf buffer1 (N : Int) vg = some st1 ∧
      (∀ j, N * vg.channels ≤ j → st.buffer j = buffer j) ∧
      (∀ j, j < N * vg.channels → st.buffer j = st1.buffer j) := by
  refine ⟨_, _, render_layered_populated rv vg cs hpop hne ibuf buffer N,
    render_layered_populated rv vg cs hpop hne ibuf buffer1 N, ?_, ?_⟩
  · intro j hj
    exact pass_loop_other rv hch vg.channels N N 0 _ j hT (Or.inr hj)
  · intro j hj
    have hTpos : 0 < vg.channels := by
      rcases Nat.eq_zero_or_pos vg.channels with h | h
      · rw [h] at hj; simp at hj
      · exact h
    have hf : j / vg.channels < N := by
      apply Nat.div_lt_of_lt_mul
      rwa [Nat.mul_comm]
    have hr : j % vg.channels < total_channels cs := by
      rw [← hT]; exact Nat.mod_lt _ hTpos
    obtain ⟨i, c, k, hget, hk, hrk⟩ := channel_locate cs _ hr
    have hj2 : j = (j / vg.channels) * vg.channels + (channel_offset cs i + k) := by
      rw [← hrk, Nat.mul_comm]; exact (Nat.div_add_mod j vg.channels).symm
    obtain ⟨d, h1, h2⟩ := pass_loop_hit rv hch vg.channels N N 0
      { buffer := buffer, interleave_buf := ibuf, children := cs,
        current_sample := vg.current_sample, events := [] } hT (by omega) _ (Nat.zero_le _) hf
      i c hget k hk
    obtain ⟨d1, h3, h4⟩ := pass_loop_hit rv hch vg.channels N N 0
      { buffer := buffer1, interleave_buf := ibuf, children := cs,
        current_sample := vg.current_sample, events := [] } hT (by omega) _ (Nat.zero_le _) hf
      i c hget k hk
    have hev := (pass_loop_indep rv vg.channels N N 0
      { buffer := buffer, interleave_buf := ibuf, children := cs,
        current_sample := vg.current_sample, events := [] }
      { buffer := buffer1, interleave_buf := ibuf, children := cs,
        current_sample := vg.current_sample, events := [] } rfl rfl rfl rfl).2.1
    rw [hev, h3] at h1
    simp only [Option.some.injEq, Event.render_vgmstream.injEq, true_and] at h1
    show (pass_loop rv vg.channels N N 0 _).buffer j = (pass_loop rv vg.channels N N 0 _).buffer j
    rw [hj2, h2, h4, h1]

theorem render_layered_frame_witness :
    ∃ st st1,
      render_vgmstream_layered constant_decoder (fun _ => 0) (fun _ => 0) ((4 : Nat) : Int)
        (test_composite test_pair) = some st ∧
      render_vgmstream_layered constant_decoder (fun _ => 0) (fun _ => 7) ((4 : Nat) : Int)
        (test_composite test_pair) = some st1 ∧
      (∀ j, 4 * (test_composite test_pair).channels ≤ j → st.buffer j = (fun _ => 0) j) ∧
      (∀ j, j < 4 * (test_composite test_pair).channels → st.buffer j = st1.buffer j) :=
  render_layered_frame constant_decoder constant_decoder_keeps (test_composite test_pair)
    test_pair (test_composite_populated test_pair) (by simp [test_pair]) rfl (fun _ => 0) (fun _ => 0)
    (fun _ => 7) 4

/-- C10: with `sample_count = 0` `render_vgmstream_layered` returns at once: no decode
call is issued, and the output buffer, the scratch array and the composite (with
every child and `current_sample`) are as before. -/
theorem render_layered_zero
    (rv : (Nat → sample_t) → Nat → VGMSTREAM σ → (Nat → sample_t) × VGMSTREAM σ)
    (ibuf buffer : Nat → sample_t) (vg : VGMSTREAM (layered_layout_data σ)) :
    render_vgmstream_layered rv ibuf buffer 0 vg =
      some { buffer := buffer, interleave_buf := ibuf, vgmstream := vg, events := [] } := by
  simp [render_vgmstream_layered, render_loop]

theorem reset_loop_from (reset_vgmstream : VGMSTREAM σ → VGMSTREAM σ) :
    ∀ (todo done : List (VGMSTREAM σ)) (data : layered_layout_data σ) (ev : List Event),
      data.layers = some ((done ++ todo).map some) →
      (List.range' done.length todo.length).foldlM (reset_layer reset_vgmstream)
        (data, ev) =
      some ({ data with layers := some ((done ++ todo.map reset_vgmstream).map some) },
        ev ++ (List.range' done.length todo.length).map Event.reset_vgmstream) := by
  intro todo
  induction todo with
  | nil =>
    intro done data ev hl
    obtain ⟨lc, layers⟩ := data
    simp only [List.append_nil] at hl
    subst hl
    simp
  | cons c rest ih =>
    intro done data ev hl
    have hget : ((done ++ c :: rest).map some)[done.length]? = some (some c) := by
      rw [List.map_append, List.getElem?_append_right (by simp)]
      simp
    simp only [List.length_cons, List.range'_succ, List.foldlM_cons, reset_layer,
      layer_of_layers hl, hget, Option.bind_eq_bind, Option.some_bind]
    have hl2 : (data.store done.length (reset_vgmstream c)).layers =
        some (((done ++ [reset_vgmstream c]) ++ rest).map some) := by
      rw [store_layers hl]
      simp [List.set_append_right]
    have := ih (done ++ [reset_vgmstream c]) _ (ev ++ [Event.reset_vgmstream done.length]) hl2
    simp only [List.length_append, List.length_singleton] at this
    rw [this]
    simp [layered_layout_data.store]

theorem reset_populated (reset_vgmstream : VGMSTREAM σ → VGMSTREAM σ)
    (data : layered_layout_data σ) (cs : List (VGMSTREAM σ)) (hpop : Populated data cs) :
    reset_layout_layered reset_vgmstream (some data) =
      some (some { data with layers := some ((cs.map reset_vgmstream).map some) },
        (List.range cs.length).map Event.reset_vgmstream) := by
  have := reset_loop_from reset_vgmstream cs [] data [] hpop.2
  simp only [List.length_nil, List.nil_append] at this
  simp only [reset_layout_layered, populated_count hpop, List.range_eq_range', this]

/-- Every output index below `N * T` is frame `f < N`, channel `k` of some layer `i`. -/
theorem index_locate (cs : List (VGMSTREAM σ)) (T N j : Nat) (hT : T = total_channels cs)
    (hj : j < N * T) :
    ∃ f i c k, f < N ∧ cs[i]? = some c ∧ k < c.channels ∧
      j = f * T + (channel_offset cs i + k) := by
  have hTpos : 0 < T := by
    rcases Nat.eq_zero_or_pos T with h | h
    · rw [h] at hj; simp at hj
    · exact h
  have hf : j / T < N := by
    apply Nat.div_lt_of_lt_mul
    rwa [Nat.mul_comm]
  have hr : j % T < total_channels cs := by
    rw [← hT]; exact Nat.mod_lt _ hTpos
  obtain ⟨i, c, k, hget, hk, hrk⟩ := channel_locate cs _ hr
  refine ⟨j / T, i, c, k, hf, hget, hk, ?_⟩
  rw [← hrk, Nat.mul_comm]
  exact (Nat.div_add_mod j T).symm

/-- C11: with deterministic children whose reset brings each child back to the state
it had before the render, rendering `N` frames, calling `reset_layout_layered` and
rendering `N` frames again gives the same `N * T` output samples as the first render
(whatever the output and scratch buffers held before the second render). -/
theorem render_reset_render
    (rv : (Nat → sample_t) → Nat → VGMSTREAM σ → (Nat → sample_t) × VGMSTREAM σ)
    (hdet : Deterministic rv) (reset_vgmstream : VGMSTREAM σ → VGMSTREAM σ)
    (vg : VGMSTREAM (layered_layout_data σ)) (cs : List (VGMSTREAM σ))
    (hpop : Populated vg.layout_data cs) (hne : cs ≠ [])
    (hT : vg.channels = total_channels cs) (N : Nat)
    (hreset : ∀ c ∈ cs, reset_vgmstream (advance_child rv N c) = c)
    (ibuf1 ibuf2 buffer1 buffer2 : Nat → sample_t) :
    ∃ st1 data1 ev st2,
      render_vgmstream_layered rv ibuf1 buffer1 (N : Int) vg = some st1 ∧
      reset_layout_layered reset_vgmstream (some st1.vgmstream.layout_data) =
        some (some data1, ev) ∧
      render_vgmstream_layered rv ibuf2 buffer2 (N : Int)
        { st1.vgmstream with layout_data := data1 } = some st2 ∧
      ∀ j, j < N * vg.channels → st2.buffer j = st1.buffer j := by
  obtain ⟨st1, hst1, hvg1, _, hval1⟩ :=
    render_layered_det rv hdet vg cs hpop hne hT ibuf1 buffer1 N
  have hpop1 : Populated st1.vgmstream.layout_data (cs.map (advance_child rv N)) := by
    rw [hvg1]
    exact ⟨by simp [advance_composite, hpop.1], rfl⟩
  have hback : (cs.map (advance_child rv N)).map reset_vgmstream = cs := by
    rw [List.map_map]
    conv_rhs => rw [← List.map_id cs]
    apply List.map_congr_left
    intro c hc
    exact hreset c hc
  have hres := reset_populated reset_vgmstream st1.vgmstream.layout_data _ hpop1
  rw [hback] at hres
  have hpop2 : Populated
      ({ st1.vgmstream with
         layout_data := { st1.vgmstream.layout_data with layers := some (cs.map some) } } :
        VGMSTREAM (layered_layout_data σ)).layout_data cs := by
    refine ⟨?_, rfl⟩
    show st1.vgmstream.layout_data.layer_count = _
    rw [hvg1]
    exact hpop.1
  have hch1 : st1.vgmstream.channels = vg.channels := by rw [hvg1]; rfl
  obtain ⟨st2, hst2, _, _, hval2⟩ :=
    render_layered_det rv hdet _ cs hpop2 hne (hch1.trans hT) ibuf2 buffer2 N
  refine ⟨st1, _, _, st2, hst1, hres, hst2, ?_⟩
  intro j hj
  obtain ⟨f, i, c, k, hf, hget, hk, rfl⟩ := index_locate cs vg.channels N j hT hj
  have h2 := hval2 f hf i c hget k hk
  rw [show ({ st1.vgmstream with
         layout_data := { st1.vgmstream.layout_data with layers := some (cs.map some) } } :
        VGMSTREAM (layered_layout_data σ)).channels = vg.channels from hch1] at h2
  rw [h2, hval1 f hf i c hget k hk]

theorem render_reset_render_witness :
    ∃ st1 data1 ev st2,
      render_vgmstream_layered ramp_decoder (fun _ => 1) (fun _ => 0) ((5 : Nat) : Int)
        (test_composite test_trio) = some st1 ∧
      reset_layout_layered (fun l => { l with current_sample := 0 })
        (some st1.vgmstream.layout_data) = some (some data1, ev) ∧
      render_vgmstream_layered ramp_decoder (fun _ => 2) (fun _ => 7) ((5 : Nat) : Int)
        { st1.vgmstream with layout_data := data1 } = some st2 ∧
      ∀ j, j < 5 * (test_composite test_trio).channels → st2.buffer j = st1.buffer j :=
  render_reset_render ramp_decoder ramp_decoder_deterministic
    (fun l => { l with current_sample := 0 }) (test_composite test_trio) test_trio
    (test_composite_populated test_trio) (by simp [test_trio]) rfl 5
    (by
      intro c hc
      simp only [test_trio, List.mem_cons, List.mem_singleton, List.not_mem_nil, or_false] at hc
      rcases hc with rfl | rfl | rfl <;> rfl)
    (fun _ => 1) (fun _ => 2) (fun _ => 0) (fun _ => 7)

/-- C12: on a populated composite `reset_layout_layered` calls `reset_vgmstream` once
on each of the `layer_count` children, in attachment order and without any
condition, and changes nothing else (`layer_count` and the order of the slots stay);
on a `NULL` composite it does nothing. -/
theorem reset_layout_layered_spec (reset_vgmstream : VGMSTREAM σ → VGMSTREAM σ)
    (data : layered_layout_data σ) (cs : List (VGMSTREAM σ)) (hpop : Populated data cs) :
    reset_layout_layered reset_vgmstream (some data) =
        some (some { data with layers := some ((cs.map reset_vgmstream).map some) },
          (List.range cs.length).map Event.reset_vgmstream) ∧
      reset_layout_layered reset_vgmstream (none : Option (layered_layout_data σ)) =
        some (none, []) := by
  exact ⟨reset_populated reset_vgmstream data cs hpop, rfl⟩

theorem reset_layout_layered_spec_witness :
    reset_layout_layered (fun l => { l with current_sample := 0 })
        (some (test_composite test_trio).layout_data) =
        some (some { (test_composite test_trio).layout_data with
            layers := some ((test_trio.map (fun l => { l with current_sample := 0 })).map some) },
          (List.range test_trio.length).map Event.reset_vgmstream) ∧
      reset_layout_layered (fun l => { l with current_sample := 0 })
        (none : Option (layered_layout_data Int)) = some (none, []) :=
  reset_layout_layered_spec _ (test_composite test_trio).layout_data test_trio
    (test_composite_populated test_trio)

/-- The `close_vgmstream` calls of `free_layout_layered` when the slot array is there:
one call per slot below `layer_count`, in order, with the `NULL` pointer for an empty
slot. -/
theorem free_loop (ls : List (Option (VGMSTREAM σ))) :
    ∀ n, n ≤ ls.length →
      (List.range n).mapM
        (fun i => (ls[i]?).map (fun slot => Event.close_vgmstream (some i) slot.isNone)) =
      some ((List.range n).map
        (fun i => Event.close_vgmstream (some i) ((ls.getD i none).isNone))) := by
  intro n
  induction n with
  | zero => intro _; rfl
  | succ n ih =>
    intro hn
    have hlt : n < ls.length := by omega
    rw [List.range_succ, List.mapM_append, ih (by omega)]
    rw [List.mapM_cons, List.mapM_nil]
    simp [List.getElem?_eq_getElem hlt, List.getD_eq_getElem?_getD]

/-- C13 (as amended): `free_layout_layered` on a composite with a slot array of at
least `layer_count` slots returns, having called `close_vgmstream` exactly once for
every slot below `layer_count`, in order: with the child for a non-empty slot and with
the `NULL` pointer for an empty one (the function itself dereferences no slot).  On a
`NULL` composite, or one whose slot array is `NULL`, it issues no call. -/
theorem free_layout_layered_calls (data : layered_layout_data σ)
    (ls : List (Option (VGMSTREAM σ))) (hl : data.layers = some ls)
    (hn : data.layer_count.toNat ≤ ls.length) :
    free_layout_layered (some data) =
        some ((List.range data.layer_count.toNat).map
          (fun i => Event.close_vgmstream (some i) ((ls.getD i none).isNone))) ∧
      free_layout_layered (none : Option (layered_layout_data σ)) = some [] ∧
      free_layout_layered (some ({ data with layers := none } : layered_layout_data σ)) = some [] := by
  refine ⟨?_, rfl, rfl⟩
  simp only [free_layout_layered, hl]
  exact free_loop ls _ hn

theorem free_layout_layered_calls_witness :
    free_layout_layered (some test_partial) =
        some [Event.close_vgmstream (some 0) false, Event.close_vgmstream (some 1) false,
          Event.close_vgmstream (some 2) true, Event.close_vgmstream (some 3) true,
          Event.close_vgmstream (some 4) true] ∧
      free_layout_layered (none : Option (layered_layout_data Int)) = some [] ∧
      free_layout_layered (some ({ test_partial with layers := none } : layered_layout_data Int)) =
        some [] :=
  free_layout_layered_calls test_partial _ rfl (by decide)

/-- C13, as stated, fails: with 2 of 5 slots attached `free_layout_layered` issues five
`close_vgmstream` calls, three of them on the empty slots 2, 3 and 4 (with the `NULL`
pointer read from the slot). -/
theorem free_layout_layered_closes_empty :
    ∃ ev, free_layout_layered (some test_partial) = some ev ∧ ev.length = 5 ∧
      Event.close_vgmstream (some 2) true ∈ ev ∧ Event.close_vgmstream (some 3) true ∈ ev ∧
      Event.close_vgmstream (some 4) true ∈ ev :=
  ⟨_, rfl, rfl, by simp, by simp, by simp⟩

theorem totals_empty (data : layered_layout_data σ) (h : data.layer_count ≤ 0) :
    allocate_layered_totals data = some (0, 1) := by
  have : data.layer_count.toNat = 0 := by omega
  simp [allocate_layered_totals, this]

/-- C14 (as amended): `allocate_layered_vgmstream` has no check of its own for a
composite without children.  With `layer_count = 0` it asks `allocate_vgmstream` for
a stream of 0 channels with loop flag 1; it returns no stream when that allocation
fails, and when the allocation succeeds it goes on to read `layers[0]` (an invalid
access when there is no such slot). -/
theorem allocate_layered_no_children
    (allocate_vgmstream : Nat → Int → Option (VGMSTREAM Unit))
    (data : layered_layout_data σ) (h : data.layer_count ≤ 0) :
    allocate_layered_totals data = some (0, 1) ∧
      (allocate_vgmstream 0 1 = none →
        allocate_layered_vgmstream allocate_vgmstream data =
          some (none, [Event.close_vgmstream none true])) ∧
      (∀ v, allocate_vgmstream 0 1 = some v → data.deref 0 = none →
        allocate_layered_vgmstream allocate_vgmstream data = none) ∧
      (∀ v l0, allocate_vgmstream 0 1 = some v → data.deref 0 = some l0 →
        ∃ w, allocate_layered_vgmstream allocate_vgmstream data = some (some w, [])) := by
  have ht := totals_empty data h
  refine ⟨ht, ?_, ?_, ?_⟩
  · intro hnone
    simp only [allocate_layered_vgmstream, ht, hnone]
  · intro v hv hd
    simp only [allocate_layered_vgmstream, ht, hv, hd]
  · intro v l0 hv hd
    simp only [allocate_layered_vgmstream, ht, hv, hd]
    exact ⟨_, rfl⟩

theorem allocate_layered_no_children_witness :
    allocate_layered_totals test_empty = some (0, 1) ∧
      (test_allocate_fails 0 1 = none →
        allocate_layered_vgmstream test_allocate_fails test_empty =
          some (none, [Event.close_vgmstream none true])) ∧
      (∀ v, test_allocate_fails 0 1 = some v → test_empty.deref 0 = none →
        allocate_layered_vgmstream test_allocate_fails test_empty = none) ∧
      (∀ v l0, test_allocate_fails 0 1 = some v → test_empty.deref 0 = some l0 →
        ∃ w, allocate_layered_vgmstream test_allocate_fails test_empty = some (some w, [])) :=
  allocate_layered_no_children test_allocate_fails test_empty (by decide)

/-- C14, as stated, fails: on a composite without children and with an allocator that
hands out a stream, `allocate_layered_vgmstream` does not return "no stream" by a check
of its own; it reads `layers[0]`, which does not exist. -/
theorem allocate_layered_empty_reads_first :
    allocate_layered_totals test_empty = some (0, 1) ∧
      (test_allocate 0 1).isSome = true ∧
      test_empty.deref 0 = none ∧
      allocate_layered_vgmstream test_allocate test_empty = none :=
  ⟨rfl, rfl, rfl, rfl⟩

/-- C15 (as amended): when the wrapper allocation inside `allocate_layered_vgmstream`
fails, the function returns no stream after calling `close_vgmstream` on the `NULL`
wrapper only: no child is closed and the composite state is not released, it stays
with the caller. -/
theorem allocate_layered_alloc_fails
    (allocate_vgmstream : Nat → Int → Option (VGMSTREAM Unit))
    (data : layered_layout_data σ) (cs : List (VGMSTREAM σ)) (hpop : Populated data cs)
    (hfail : allocate_vgmstream (total_channels cs) (all_loop cs) = none) :
    allocate_layered_vgmstream allocate_vgmstream data =
        some (none, [Event.close_vgmstream none true]) ∧
      ∀ ev i is_null, allocate_layered_vgmstream allocate_vgmstream data = some (none, ev) →
        Event.close_vgmstream (some i) is_null ∉ ev := by
  have ht := totals_populated hpop
  have hres : allocate_layered_vgmstream allocate_vgmstream data =
      some (none, [Event.close_vgmstream none true]) := by
    unfold total_channels at hfail
    simp only [allocate_layered_vgmstream, ht, hfail]
  refine ⟨hres, ?_⟩
  intro ev i is_null hev
  rw [hres] at hev
  simp only [Option.some.injEq, Prod.mk.injEq, true_and] at hev
  subst hev
  simp

theorem allocate_layered_alloc_fails_witness :
    allocate_layered_vgmstream test_allocate_fails (test_composite test_trio).layout_data =
        some (none, [Event.close_vgmstream none true]) ∧
      ∀ ev i is_null,
        allocate_layered_vgmstream test_allocate_fails (test_composite test_trio).layout_data =
          some (none, ev) →
        Event.close_vgmstream (some i) is_null ∉ ev :=
  allocate_layered_alloc_fails test_allocate_fails (test_composite test_trio).layout_data
    test_trio (test_composite_populated test_trio) rfl

/-- C15, as stated, fails: with three attached children and a failing allocator
`allocate_layered_vgmstream` returns no stream and has closed none of the children:
its only call is `close_vgmstream(NULL)`. -/
theorem allocate_layered_keeps_children :
    ∃ ev, allocate_layered_vgmstream test_allocate_fails
        (test_composite test_trio).layout_data = some (none, ev) ∧
      ev.length = 1 ∧
      Event.close_vgmstream (some 0) false ∉ ev ∧ Event.close_vgmstream (some 1) false ∉ ev ∧
      Event.close_vgmstream (some 2) false ∉ ev :=
  ⟨[Event.close_vgmstream none true], rfl, rfl, by simp, by simp, by simp⟩

theorem pass_layers_calls
    (rv : (Nat → sample_t) → Nat → VGMSTREAM σ → (Nat → sample_t) × VGMSTREAM σ)
    (sw n T : Nat) :
    ∀ (cs : List (VGMSTREAM σ)) (i0 : Nat) (ibuf buffer : Nat → sample_t) (ch : Nat),
      (pass_layers rv sw n T i0 cs ibuf buffer ch).events.filterMap Event.decode_call =
        (List.range' i0 cs.length).map (fun i => (i, n)) := by
  intro cs
  induction cs with
  | nil => intro i0 ibuf buffer ch; simp [pass_layers]
  | cons c cs ih =>
    intro i0 ibuf buffer ch
    simp only [pass_layers, List.length_cons, List.range'_succ, List.map_cons]
    rw [List.filterMap_cons]
    simp only [Event.decode_call]
    rw [ih]

theorem schedule_step (L N sw : Nat) (h : sw < N) :
    (List.range ((N - sw + (LAYER_BUF_SIZE - 1)) / LAYER_BUF_SIZE)).flatMap
        (fun p => (List.range L).map
          (fun i => (i, min LAYER_BUF_SIZE (N - sw - LAYER_BUF_SIZE * p)))) =
      (List.range L).map (fun i => (i, min LAYER_BUF_SIZE (N - sw))) ++
      (List.range ((N - (sw + min LAYER_BUF_SIZE (N - sw)) + (LAYER_BUF_SIZE - 1)) /
          LAYER_BUF_SIZE)).flatMap
        (fun p => (List.range L).map
          (fun i => (i, min LAYER_BUF_SIZE
            (N - (sw + min LAYER_BUF_SIZE (N - sw)) - LAYER_BUF_SIZE * p)))) := by
  have hk : (N - sw + (LAYER_BUF_SIZE - 1)) / LAYER_BUF_SIZE =
      (N - (sw + min LAYER_BUF_SIZE (N - sw)) + (LAYER_BUF_SIZE - 1)) / LAYER_BUF_SIZE + 1 := by
    unfold LAYER_BUF_SIZE; omega
  rw [hk, List.range_succ_eq_map, List.flatMap_cons, List.flatMap_map]
  refine congrArg₂ (fun a b => a ++ b) ?_ ?_
  · apply List.map_congr_left
    intro i _
    rw [Nat.mul_zero, Nat.sub_zero]
  apply List.flatMap_congr
  intro p hp
  apply List.map_congr_left
  intro i _
  have hp2 := List.mem_range.1 hp
  show (i, min LAYER_BUF_SIZE (N - sw - LAYER_BUF_SIZE * (p + 1))) =
    (i, min LAYER_BUF_SIZE (N - (sw + min LAYER_BUF_SIZE (N - sw)) - LAYER_BUF_SIZE * p))
  refine congrArg (Prod.mk i) ?_
  unfold LAYER_BUF_SIZE at hp2 ⊢
  omega

theorem pass_loop_calls
    (rv : (Nat → sample_t) → Nat → VGMSTREAM σ → (Nat → sample_t) × VGMSTREAM σ)
    (T N : Nat) :
    ∀ (fuel sw : Nat) (st : loop_state σ), N - sw ≤ fuel →
      (pass_loop rv T N fuel sw st).events.filterMap Event.decode_call =
        st.events.filterMap Event.decode_call ++
        (List.range ((N - sw + (LAYER_BUF_SIZE - 1)) / LAYER_BUF_SIZE)).flatMap
          (fun p => (List.range st.children.length).map
            (fun i => (i, min LAYER_BUF_SIZE (N - sw - LAYER_BUF_SIZE * p)))) ∧
      (pass_loop rv T N fuel sw st).events.length =
        st.events.length +
          ((N - sw + (LAYER_BUF_SIZE - 1)) / LAYER_BUF_SIZE) * st.children.length := by
  intro fuel
  induction fuel with
  | zero =>
    intro sw st hf
    have : (N - sw + (LAYER_BUF_SIZE - 1)) / LAYER_BUF_SIZE = 0 := by
      unfold LAYER_BUF_SIZE; omega
    simp [pass_loop, this]
  | succ fuel ih =>
    intro sw st hf
    by_cases hlt : sw < N
    · rw [pass_loop_step rv T N fuel sw st hlt]
      obtain ⟨h1, h2⟩ := ih (sw + min LAYER_BUF_SIZE (N - sw))
        { buffer := (pass_layers rv sw (min LAYER_BUF_SIZE (N - sw)) T 0 st.children
            st.interleave_buf st.buffer 0).buffer
          interleave_buf := (pass_layers rv sw (min LAYER_BUF_SIZE (N - sw)) T 0 st.children
            st.interleave_buf st.buffer 0).interleave_buf
          children := (pass_layers rv sw (min LAYER_BUF_SIZE (N - sw)) T 0 st.children
            st.interleave_buf st.buffer 0).children
          current_sample := ((pass_layers rv sw (min LAYER_BUF_SIZE (N - sw)) T 0 st.children
            st.interleave_buf st.buffer 0).children.head?.map
              (fun l => l.current_sample)).getD st.current_sample
          events := st.events ++ (pass_layers rv sw (min LAYER_BUF_SIZE (N - sw)) T 0
            st.children st.interleave_buf st.buffer 0).events }
        (by unfold LAYER_BUF_SIZE; omega)
      obtain ⟨hl1, hl2⟩ := pass_layers_length rv sw (min LAYER_BUF_SIZE (N - sw)) T
        st.children 0 st.interleave_buf st.buffer 0
      simp only [] at h1 h2
      rw [hl1] at h1 h2
      refine ⟨?_, ?_⟩
      · rw [h1, List.filterMap_append, pass_layers_calls, ← List.range_eq_range',
          schedule_step _ N sw hlt, List.append_assoc]
      · rw [h2, List.length_append, hl2]
        have hk : (N - sw + (LAYER_BUF_SIZE - 1)) / LAYER_BUF_SIZE =
            (N - (sw + min LAYER_BUF_SIZE (N - sw)) + (LAYER_BUF_SIZE - 1)) /
              LAYER_BUF_SIZE + 1 := by
          unfold LAYER_BUF_SIZE; omega
        rw [hk, Nat.add_mul, Nat.one_mul]
        omega
    · rw [pass_loop_done rv T N _ sw st hlt]
      have : (N - sw + (LAYER_BUF_SIZE - 1)) / LAYER_BUF_SIZE = 0 := by
        unfold LAYER_BUF_SIZE; omega
      simp [this]

/-- C16: on a populated composite a render of `N` frames returns after
`ceil(N / 512)` passes: the calls it issues are exactly `layer_count` decode calls
per pass, one per layer in attachment order, each requesting `min(512, frames
remaining)` frames, and no other call. -/
theorem render_layered_schedule
    (rv : (Nat → sample_t) → Nat → VGMSTREAM σ → (Nat → sample_t) × VGMSTREAM σ)
    (vg : VGMSTREAM (layered_layout_data σ)) (cs : List (VGMSTREAM σ))
    (hpop : Populated vg.layout_data cs) (hne : cs ≠ [])
    (ibuf buffer : Nat → sample_t) (N : Nat) :
    ∃ st, render_vgmstream_layered rv ibuf buffer (N : Int) vg = some st ∧
      st.events.filterMap Event.decode_call = decode_schedule cs.length N ∧
      st.events.length = ((N + (LAYER_BUF_SIZE - 1)) / LAYER_BUF_SIZE) * cs.length := by
  refine ⟨_, render_layered_populated rv vg cs hpop hne ibuf buffer N, ?_⟩
  obtain ⟨h1, h2⟩ := pass_loop_calls rv vg.channels N N 0
    { buffer := buffer, interleave_buf := ibuf, children := cs,
      current_sample := vg.current_sample, events := [] } (by omega)
  simp only [List.filterMap_nil, List.nil_append, Nat.sub_zero, List.length_nil,
    Nat.zero_add] at h1 h2
  exact ⟨h1, h2⟩

theorem render_layered_schedule_witness :
    decode_schedule test_trio.length 1030 =
        [(0, 512), (1, 512), (2, 512), (0, 512), (1, 512), (2, 512), (0, 6), (1, 6), (2, 6)] ∧
    ∃ st, render_vgmstream_layered ramp_decoder (fun _ => 0) (fun _ => 0) ((1030 : Nat) : Int)
        (test_composite test_trio) = some st ∧
      st.events.filterMap Event.decode_call = decode_schedule test_trio.length 1030 ∧
      st.events.length = ((1030 + (LAYER_BUF_SIZE - 1)) / LAYER_BUF_SIZE) * test_trio.length :=
  ⟨by decide,
    render_layered_schedule ramp_decoder (test_composite test_trio) test_trio
      (test_composite_populated test_trio) (by simp [test_trio]) (fun _ => 0) (fun _ => 0) 1030⟩

/-- After at least one pass the first child is in the state its decode call of the
last pass left it in; that pass requested `N - sw - 512 * ((N - sw - 1) / 512)`
frames. -/
theorem pass_loop_last
    (rv : (Nat → sample_t) → Nat → VGMSTREAM σ → (Nat → sample_t) × VGMSTREAM σ)
    (T N : Nat) :
    ∀ (fuel sw : Nat) (st : loop_state σ), N - sw ≤ fuel → sw < N → st.children ≠ [] →
      ∃ ib prev l0 rest, (pass_loop rv T N fuel sw st).children = l0 :: rest ∧
        l0 = (rv ib (N - sw - LAYER_BUF_SIZE * ((N - sw - 1) / LAYER_BUF_SIZE)) prev).2 := by
  intro fuel
  induction fuel with
  | zero => intro sw st h1 h2; omega
  | succ fuel ih =>
    intro sw st hf hlt hne
    rw [pass_loop_step rv T N fuel sw st hlt]
    obtain ⟨c0, rest0, hcs⟩ : ∃ c0 rest0, st.children = c0 :: rest0 := by
      cases hc : st.children with
      | nil => exact absurd hc hne
      | cons c0 rest0 => exact ⟨c0, rest0, rfl⟩
    obtain ⟨ib, hc1, _, _⟩ := pass_layers_hit rv sw (min LAYER_BUF_SIZE (N - sw)) T
      st.children 0 st.interleave_buf st.buffer 0 0 c0 (by rw [hcs]; simp)
    generalize pass_layers rv sw (min LAYER_BUF_SIZE (N - sw)) T 0 st.children
      st.interleave_buf st.buffer 0 = p at hc1 ⊢
    obtain ⟨l1, rest1, hp⟩ : ∃ l1 rest1, p.children = l1 :: rest1 := by
      cases hc : p.children with
      | nil => rw [hc] at hc1; cases hc1
      | cons l1 rest1 => exact ⟨l1, rest1, rfl⟩
    by_cases hmore : sw + min LAYER_BUF_SIZE (N - sw) < N
    · obtain ⟨ib2, prev, l0, rest, h1, h2⟩ := ih (sw + min LAYER_BUF_SIZE (N - sw))
        { buffer := p.buffer, interleave_buf := p.interleave_buf, children := p.children,
          current_sample := (p.children.head?.map (fun l => l.current_sample)).getD
            st.current_sample,
          events := st.events ++ p.events }
        (by unfold LAYER_BUF_SIZE; omega) hmore (by simp [hp])
      refine ⟨ib2, prev, l0, rest, h1, ?_⟩
      rw [h2]
      have : N - (sw + min LAYER_BUF_SIZE (N - sw)) -
          LAYER_BUF_SIZE * ((N - (sw + min LAYER_BUF_SIZE (N - sw)) - 1) / LAYER_BUF_SIZE) =
          N - sw - LAYER_BUF_SIZE * ((N - sw - 1) / LAYER_BUF_SIZE) := by
        unfold LAYER_BUF_SIZE at hmore ⊢; omega
      rw [this]
    · rw [pass_loop_done rv T N _ _ _ hmore]
      refine ⟨ib, c0, l1, rest1, hp, ?_⟩
      rw [hp] at hc1
      simp only [List.getElem?_cons_zero, Option.some.injEq] at hc1
      have : N - sw - LAYER_BUF_SIZE * ((N - sw - 1) / LAYER_BUF_SIZE) =
          min LAYER_BUF_SIZE (N - sw) := by
        unfold LAYER_BUF_SIZE at hmore ⊢; omega
      rw [this, hc1]

/-- C17: after a render of `N > 0` frames on a populated composite, the composite's
`current_sample` is the `current_sample` of the first child (`layers[0]`) in the state
in which that child's decode call of the last pass left it; no other child's
`current_sample` enters. -/
theorem render_layered_current
    (rv : (Nat → sample_t) → Nat → VGMSTREAM σ → (Nat → sample_t) × VGMSTREAM σ)
    (vg : VGMSTREAM (layered_layout_data σ)) (cs : List (VGMSTREAM σ))
    (hpop : Populated vg.layout_data cs) (hne : cs ≠ [])
    (ibuf buffer : Nat → sample_t) (N : Nat) (hN : 0 < N) :
    ∃ st l0 rest, render_vgmstream_layered rv ibuf buffer (N : Int) vg = some st ∧
      st.vgmstream.layout_data.layers = some (some l0 :: rest) ∧
      st.vgmstream.current_sample = l0.current_sample ∧
      ∃ ib prev,
        l0 = (rv ib (N - LAYER_BUF_SIZE * ((N - 1) / LAYER_BUF_SIZE)) prev).2 := by
  obtain ⟨ib, prev, l0, rest, h1, h2⟩ := pass_loop_last rv vg.channels N N 0
    { buffer := buffer, interleave_buf := ibuf, children := cs,
      current_sample := vg.current_sample, events := [] } (by omega) hN hne
  have hcur := pass_loop_current rv vg.channels N N 0
    { buffer := buffer, interleave_buf := ibuf, children := cs,
      current_sample := vg.current_sample, events := [] } (by omega) hN l0 rest h1
  refine ⟨_, l0, rest.map some, render_layered_populated rv vg cs hpop hne ibuf buffer N,
    ?_, hcur, ib, prev, ?_⟩
  · simp only [loop_state.to_render, h1, List.map_cons]
  · simpa using h2

theorem render_layered_current_witness :
    (render_vgmstream_layered stride_decoder (fun _ => 0) (fun _ => 0) ((5 : Nat) : Int)
        (test_composite test_trio)).map
      (fun st => (st.vgmstream.current_sample,
        st.vgmstream.layout_data.layers.map
          (fun ls => ls.map (fun slot => slot.map (fun l => l.current_sample))))) =
      some (10, some [some 10, some 5, some 10]) ∧
    ∃ st l0 rest, render_vgmstream_layered stride_decoder (fun _ => 0) (fun _ => 0)
        ((5 : Nat) : Int) (test_composite test_trio) = some st ∧
      st.vgmstream.layout_data.layers = some (some l0 :: rest) ∧
      st.vgmstream.current_sample = l0.current_sample ∧
      ∃ ib prev,
        l0 = (stride_decoder ib (5 - LAYER_BUF_SIZE * ((5 - 1) / LAYER_BUF_SIZE)) prev).2 :=
  ⟨by decide,
    render_layered_current stride_decoder (test_composite test_trio) test_trio
      (test_composite_populated test_trio) (by simp [test_trio]) (fun _ => 0) (fun _ => 0) 5
      (by decide)⟩

section tags
variable {α : Type} (tag : VGMSTREAM σ → α)

theorem deref_eq_some {data : layered_layout_data σ} {i : Nat} {l : VGMSTREAM σ}
    (h : data.deref i = some l) : data.layer i = some (some l) := by
  unfold layered_layout_data.deref at h
  split at h
  · rename_i l1 hl
    cases h
    exact hl
  · cases h

theorem store_tags {data : layered_layout_data σ} {i : Nat} {l l1 : VGMSTREAM σ}
    (h : data.layer i = some (some l)) (ht : tag l1 = tag l) :
    (data.store i l1).layer_count = data.layer_count ∧
      slot_tags tag (data.store i l1) = slot_tags tag data := by
  refine ⟨rfl, ?_⟩
  obtain ⟨lc, layers⟩ := data
  cases layers with
  | none => simp [layered_layout_data.layer] at h
  | some ls =>
    simp only [layered_layout_data.layer] at h
    simp only [slot_tags, layered_layout_data.store, Option.map_some', Option.some.injEq]
    apply List.ext_getElem?
    intro n
    rw [List.getElem?_map, List.getElem?_map, List.getElem?_set]
    by_cases hn : i = n
    · subst hn
      have hlen : i < ls.length := by
        rcases Nat.lt_or_ge i ls.length with h1 | h1
        · exact h1
        · rw [List.getElem?_eq_none h1] at h; cases h
      simp [hlen, h, ht]
    · simp [hn]

theorem setup_loop_tags (setup_vgmstream : VGMSTREAM σ → VGMSTREAM σ)
    (hs : ∀ l, tag (setup_vgmstream l) = tag l) :
    ∀ (remaining i : Nat) (data : layered_layout_data σ) (ev : List Event) r data1 ev1,
      setup_loop setup_vgmstream remaining i data ev = some (r, data1, ev1) →
      data1.layer_count = data.layer_count ∧ slot_tags tag data1 = slot_tags tag data := by
  intro remaining
  induction remaining with
  | zero =>
    intro i data ev r data1 ev1 h
    simp only [setup_loop, Option.some.injEq, Prod.mk.injEq] at h
    obtain ⟨_, rfl, _⟩ := h
    exact ⟨rfl, rfl⟩
  | succ n ih =>
    intro i data ev r data1 ev1 h
    unfold setup_loop at h
    rcases hlay : data.layer i with _ | _ | l
    · rw [hlay] at h; cases h
    · rw [hlay] at h
      simp only [Option.some.injEq, Prod.mk.injEq] at h
      obtain ⟨_, rfl, _⟩ := h
      exact ⟨rfl, rfl⟩
    · rw [hlay] at h
      simp only [] at h
      by_cases h1 : l.num_samples ≤ 0
      · rw [if_pos h1] at h
        simp only [Option.some.injEq, Prod.mk.injEq] at h
        obtain ⟨_, rfl, _⟩ := h
        exact ⟨rfl, rfl⟩
      · rw [if_neg h1] at h
        by_cases h2 : l.channels > LAYER_MAX_CHANNELS
        · rw [if_pos h2] at h
          simp only [Option.some.injEq, Prod.mk.injEq] at h
          obtain ⟨_, rfl, _⟩ := h
          exact ⟨rfl, rfl⟩
        · rw [if_neg h2] at h
          rcases hw : (if i > 0 then (data.deref (i - 1)).map (setup_warnings i l)
              else some []) with _ | w
          · rw [hw] at h; cases h
          · rw [hw] at h
            obtain ⟨e1, e2⟩ := ih _ _ _ _ _ _ h
            obtain ⟨s1, s2⟩ := store_tags tag hlay (hs l)
            exact ⟨e1.trans s1, e2.trans s2⟩

theorem reset_loop_tags (reset_vgmstream : VGMSTREAM σ → VGMSTREAM σ)
    (hr : ∀ l, tag (reset_vgmstream l) = tag l) :
    ∀ (is : List Nat) (st st1 : layered_layout_data σ × List Event),
      is.foldlM (reset_layer reset_vgmstream) st = some st1 →
      st1.1.layer_count = st.1.layer_count ∧ slot_tags tag st1.1 = slot_tags tag st.1 := by
  intro is
  induction is with
  | nil =>
    intro st st1 h
    simp only [List.foldlM_nil, Option.pure_def, Option.some.injEq] at h
    subst h
    exact ⟨rfl, rfl⟩
  | cons i is ih =>
    intro st st1 h
    rw [List.foldlM_cons] at h
    rcases hstep : reset_layer reset_vgmstream st i with _ | st2
    · rw [hstep] at h; cases h
    · rw [hstep] at h
      obtain ⟨e1, e2⟩ := ih st2 st1 h
      unfold reset_layer at hstep
      rcases hlay : st.1.layer i with _ | _ | l
      · rw [hlay] at hstep; cases hstep
      · rw [hlay] at hstep
        cases hstep
        exact ⟨e1, e2⟩
      · rw [hlay] at hstep
        cases hstep
        obtain ⟨s1, s2⟩ := store_tags tag hlay (hr l)
        exact ⟨e1.trans s1, e2.trans s2⟩

theorem render_layers_tags
    (rv : (Nat → sample_t) → Nat → VGMSTREAM σ → (Nat → sample_t) × VGMSTREAM σ)
    (hd : ∀ b n l, tag (rv b n l).2 = tag l) (sw n : Nat) :
    ∀ (is : List Nat) (st st1 : render_state σ × Nat),
      is.foldlM (render_layer rv sw n) st = some st1 →
      st1.1.vgmstream.layout_data.layer_count = st.1.vgmstream.layout_data.layer_count ∧
        slot_tags tag st1.1.vgmstream.layout_data = slot_tags tag st.1.vgmstream.layout_data := by
  intro is
  induction is with
  | nil =>
    intro st st1 h
    simp only [List.foldlM_nil, Option.pure_def, Option.some.injEq] at h
    subst h
    exact ⟨rfl, rfl⟩
  | cons i is ih =>
    intro st st1 h
    rw [List.foldlM_cons] at h
    rcases hstep : render_layer rv sw n st i with _ | st2
    · rw [hstep] at h; cases h
    · rw [hstep] at h
      obtain ⟨e1, e2⟩ := ih st2 st1 h
      unfold render_layer at hstep
      rcases hd0 : st.1.vgmstream.layout_data.deref i with _ | l
      · rw [hd0] at hstep; cases hstep
      · rw [hd0] at hstep
        cases hstep
        obtain ⟨s1, s2⟩ := store_tags tag (deref_eq_some hd0) (hd st.1.interleave_buf n l)
        exact ⟨e1.trans s1, e2.trans s2⟩

theorem render_loop_tags
    (rv : (Nat → sample_t) → Nat → VGMSTREAM σ → (Nat → sample_t) × VGMSTREAM σ)
    (hd : ∀ b n l, tag (rv b n l).2 = tag l) (sample_count : Int) :
    ∀ (fuel sw : Nat) (st st1 : render_state σ),
      render_loop rv sample_count fuel sw st = some st1 →
      st1.vgmstream.layout_data.layer_count = st.vgmstream.layout_data.layer_count ∧
        slot_tags tag st1.vgmstream.layout_data = slot_tags tag st.vgmstream.layout_data := by
  intro fuel
  induction fuel with
  | zero =>
    intro sw st st1 h
    unfold render_loop at h
    by_cases hc : (sw : Int) < sample_count
    · rw [if_pos hc] at h; cases h
    · rw [if_neg hc] at h
      cases h
      exact ⟨rfl, rfl⟩
  | succ fuel ih =>
    intro sw st st1 h
    unfold render_loop at h
    by_cases hc : (sw : Int) < sample_count
    · rw [if_pos hc] at h
      simp only [] at h
      rcases hls : render_layers rv sw
          (if (LAYER_BUF_SIZE : Int) > sample_count - sw
            then (sample_count - sw).toNat else LAYER_BUF_SIZE) st with _ | st2
      · rw [hls] at h; cases h
      · rw [hls] at h
        simp only [] at h
        rcases hd0 : st2.1.vgmstream.layout_data.deref 0 with _ | l0
        · rw [hd0] at h; cases h
        · rw [hd0] at h
          simp only [] at h
          obtain ⟨e1, e2⟩ := ih _ _ _ h
          obtain ⟨s1, s2⟩ := render_layers_tags tag rv hd _ _ _ _ _ hls
          exact ⟨e1.trans s1, e2.trans s2⟩
    · rw [if_neg hc] at h
      cases h
      exact ⟨rfl, rfl⟩

end tags

/-- On a populated composite `setup_layout_layered` always returns. -/
theorem setup_populated_returns (setup_vgmstream : VGMSTREAM σ → VGMSTREAM σ)
    (data : layered_layout_data σ) (cs : List (VGMSTREAM σ)) (hpop : Populated data cs) :
    ∃ r data1 ev, setup_layout_layered setup_vgmstream data = some (r, data1, ev) := by
  by_cases hall : ∀ c ∈ cs, 0 < c.num_samples ∧ c.channels ≤ LAYER_MAX_CHANNELS
  · have := setup_loop_ok setup_vgmstream cs [] data [] hpop.2 hall
    simp only [List.length_nil, List.nil_append] at this
    obtain ⟨ev, h⟩ := this
    refine ⟨1, { data with layers := some ((cs.map setup_vgmstream).map some) }, ev, ?_⟩
    unfold setup_layout_layered
    rw [populated_count hpop]
    exact h
  · simp only [not_forall] at hall
    obtain ⟨c, hc, hbad⟩ := hall
    obtain ⟨k, hk⟩ := List.getElem?_of_mem hc
    have hklen : k < cs.length := by
      rcases Nat.lt_or_ge k cs.length with h | h
      · exact h
      · rw [List.getElem?_eq_none h] at hk; cases hk
    have hslot : (cs.map some)[k]? = some (some c) := by
      rw [List.getElem?_map, hk]; rfl
    have hb : BadSlot (some c) := by
      show c.num_samples ≤ 0 ∨ c.channels > LAYER_MAX_CHANNELS
      by_cases h1 : c.num_samples ≤ 0
      · exact Or.inl h1
      · right
        by_contra h2
        exact hbad ⟨by omega, by omega⟩
    obtain ⟨data1, ev, h⟩ := setup_loop_fails setup_vgmstream k data.layer_count.toNat 0 data []
      (cs.map some) hpop.2 (Nat.zero_le k) (by rw [populated_count hpop]; omega)
      (fun j hj => absurd hj (Nat.not_lt_zero j)) ⟨some c, hslot, hb⟩
    exact ⟨0, data1, ev, h⟩

/-- C18: child ordering is an invariant.  Let `tag` give the identity of a child
(anything the external `setup_vgmstream`, `reset_vgmstream` and `render_vgmstream`
leave alone).  Then `setup_layout_layered`, `reset_layout_layered` and
`render_vgmstream_layered` leave `layer_count` unchanged and every slot holding the
same child as before (empty slots stay empty), and `allocate_layered_vgmstream` hands
the state on untouched; on a populated composite with at least one layer the first
three do return. -/
theorem layers_order_invariant {α : Type} (tag : VGMSTREAM σ → α)
    (setup_vgmstream reset_vgmstream : VGMSTREAM σ → VGMSTREAM σ)
    (rv : (Nat → sample_t) → Nat → VGMSTREAM σ → (Nat → sample_t) × VGMSTREAM σ)
    (hs : ∀ l, tag (setup_vgmstream l) = tag l) (hr : ∀ l, tag (reset_vgmstream l) = tag l)
    (hd : ∀ b n l, tag (rv b n l).2 = tag l)
    (allocate_vgmstream : Nat → Int → Option (VGMSTREAM Unit))
    (vg : VGMSTREAM (layered_layout_data σ)) (ibuf buffer : Nat → sample_t) (N : Nat) :
    (∀ r data1 ev, setup_layout_layered setup_vgmstream vg.layout_data = some (r, data1, ev) →
      data1.layer_count = vg.layout_data.layer_count ∧
        slot_tags tag data1 = slot_tags tag vg.layout_data) ∧
    (∀ data1 ev,
      reset_layout_layered reset_vgmstream (some vg.layout_data) = some (some data1, ev) →
      data1.layer_count = vg.layout_data.layer_count ∧
        slot_tags tag data1 = slot_tags tag vg.layout_data) ∧
    (∀ st, render_vgmstream_layered rv ibuf buffer (N : Int) vg = some st →
      st.vgmstream.layout_data.layer_count = vg.layout_data.layer_count ∧
        slot_tags tag st.vgmstream.layout_data = slot_tags tag vg.layout_data) ∧
    (∀ w ev, allocate_layered_vgmstream allocate_vgmstream vg.layout_data = some (some w, ev) →
      w.layout_data = vg.layout_data) ∧
    (∀ cs, Populated vg.layout_data cs → cs ≠ [] →
      (∃ r data1 ev, setup_layout_layered setup_vgmstream vg.layout_data = some (r, data1, ev)) ∧
      (∃ data1 ev,
        reset_layout_layered reset_vgmstream (some vg.layout_data) = some (some data1, ev)) ∧
      (∃ st, render_vgmstream_layered rv ibuf buffer (N : Int) vg = some st)) := by
  refine ⟨?_, ?_, ?_, ?_, ?_⟩
  · intro r data1 ev h
    exact setup_loop_tags tag setup_vgmstream hs _ _ _ _ _ _ _ h
  · intro data1 ev h
    simp only [reset_layout_layered] at h
    rcases hf : (List.range vg.layout_data.layer_count.toNat).foldlM
        (reset_layer reset_vgmstream) (vg.layout_data, []) with _ | st2
    · rw [hf] at h; cases h
    · rw [hf] at h
      simp only [Option.some.injEq, Prod.mk.injEq] at h
      obtain ⟨rfl, _⟩ := h
      exact reset_loop_tags tag reset_vgmstream hr _ _ _ hf
  · intro st h
    exact render_loop_tags tag rv hd _ _ _ _ _ h
  · intro w ev h
    simp only [allocate_layered_vgmstream] at h
    rcases ht : allocate_layered_totals vg.layout_data with _ | ⟨ch, lf⟩
    · rw [ht] at h; cases h
    · rw [ht] at h
      simp only [] at h
      rcases ha : allocate_vgmstream ch lf with _ | v
      · rw [ha] at h
        simp at h
      · rw [ha] at h
        simp only [] at h
        rcases hd0 : vg.layout_data.deref 0 with _ | l0
        · rw [hd0] at h; cases h
        · rw [hd0] at h
          simp only [Option.some.injEq, Prod.mk.injEq] at h
          obtain ⟨rfl, _⟩ := h
          rfl
  · intro cs hpop hne
    exact ⟨setup_populated_returns setup_vgmstream _ cs hpop,
      ⟨_, _, reset_populated reset_vgmstream _ cs hpop⟩,
      ⟨_, render_layered_populated rv vg cs hpop hne ibuf buffer N⟩⟩

theorem layers_order_invariant_witness :
    (render_vgmstream_layered ramp_decoder (fun _ => 0) (fun _ => 0) ((5 : Nat) : Int)
        (test_composite test_trio)).map
      (fun st => (st.vgmstream.layout_data.layer_count,
        slot_tags (fun l => l.layout_data) st.vgmstream.layout_data)) =
      some (3, some [some 100, some 200, some 300]) ∧
    ((∀ r data1 ev,
      setup_layout_layered id (test_composite test_trio).layout_data = some (r, data1, ev) →
      data1.layer_count = (test_composite test_trio).layout_data.layer_count ∧
        slot_tags (fun l => l.layout_data) data1 =
          slot_tags (fun l => l.layout_data) (test_composite test_trio).layout_data) ∧
    (∀ data1 ev,
      reset_layout_layered (fun l => { l with current_sample := 0 })
        (some (test_composite test_trio).layout_data) = some (some data1, ev) →
      data1.layer_count = (test_composite test_trio).layout_data.layer_count ∧
        slot_tags (fun l => l.layout_data) data1 =
          slot_tags (fun l => l.layout_data) (test_composite test_trio).layout_data) ∧
    (∀ st, render_vgmstream_layered ramp_decoder (fun _ => 0) (fun _ => 0) ((5 : Nat) : Int)
        (test_composite test_trio) = some st →
      st.vgmstream.layout_data.layer_count = (test_composite test_trio).layout_data.layer_count ∧
        slot_tags (fun l => l.layout_data) st.vgmstream.layout_data =
          slot_tags (fun l => l.layout_data) (test_composite test_trio).layout_data) ∧
    (∀ w ev, allocate_layered_vgmstream test_allocate (test_composite test_trio).layout_data =
        some (some w, ev) →
      w.layout_data = (test_composite test_trio).layout_data) ∧
    (∀ cs, Populated (test_composite test_trio).layout_data cs → cs ≠ [] →
      (∃ r data1 ev,
        setup_layout_layered id (test_composite test_trio).layout_data = some (r, data1, ev)) ∧
      (∃ data1 ev,
        reset_layout_layered (fun l => { l with current_sample := 0 })
          (some (test_composite test_trio).layout_data) = some (some data1, ev)) ∧
      (∃ st, render_vgmstream_layered ramp_decoder (fun _ => 0) (fun _ => 0) ((5 : Nat) : Int)
        (test_composite test_trio) = some st))) :=
  ⟨by decide,
    layers_order_invariant (fun l => l.layout_data) id (fun l => { l with current_sample := 0 })
      ramp_decoder (fun _ => rfl) (fun _ => rfl) (fun _ _ _ => rfl) test_allocate
      (test_composite test_trio) (fun _ => 0) (fun _ => 0) 5⟩

/-- The loop `for s` performs exactly the accesses of `channel_accesses`. -/
theorem mix_channel_accesses (ibuf : Nat → sample_t) (sw n T c ch lch : Nat)
    (buffer : Nat → sample_t) :
    mix_channel ibuf sw n T c ch lch buffer =
      (channel_accesses sw n T c ch lch).foldl
        (fun b a => Function.update b a.2.1 (ibuf a.1)) buffer := by
  simp only [mix_channel, channel_accesses, List.foldl_map]

/-- The loop `for layer_ch` performs exactly the accesses of `layer_accesses`. -/
theorem mix_layer_accesses (ibuf : Nat → sample_t) (sw n T c ch0 : Nat)
    (buffer : Nat → sample_t) :
    (mix_layer ibuf sw n T c (buffer, ch0)).1 =
      (layer_accesses sw n T c ch0).foldl
        (fun b a => Function.update b a.2.1 (ibuf a.1)) buffer := by
  have key : ∀ m,
      (List.range m).foldl
        (fun (st : (Nat → sample_t) × Nat) layer_ch =>
          (mix_channel ibuf sw n T c st.2 layer_ch st.1, st.2 + 1)) (buffer, ch0) =
      (((List.range m).flatMap
          (fun layer_ch => channel_accesses sw n T c (ch0 + layer_ch) layer_ch)).foldl
        (fun b a => Function.update b a.2.1 (ibuf a.1)) buffer, ch0 + m) := by
    intro m
    induction m with
    | zero => simp
    | succ m ih =>
      rw [List.range_succ, List.foldl_append, ih, List.flatMap_append, List.foldl_append]
      simp only [List.foldl_cons, List.foldl_nil, List.flatMap_cons, List.flatMap_nil,
        List.append_nil]
      rw [mix_channel_accesses]
      rfl
  unfold mix_layer layer_accesses
  rw [key c]

theorem layer_accesses_mem {sw n T c ch0 : Nat} {a : Nat × Nat × Nat}
    (h : a ∈ layer_accesses sw n T c ch0) :
    ∃ s lch, s < n ∧ lch < c ∧
      a = (layer_sample s c lch, buffer_sample sw s T (ch0 + lch), ch0 + lch) := by
  simp only [layer_accesses, channel_accesses, List.mem_flatMap, List.mem_map,
    List.mem_range] at h
  obtain ⟨lch, hlch, s, hs, rfl⟩ := h
  exact ⟨s, lch, hs, hlch, rfl⟩

theorem layer_accesses_bound {sw n T c ch0 N : Nat} {a : Nat × Nat × Nat}
    (h : a ∈ layer_accesses sw n T c ch0) (hn : n ≤ LAYER_BUF_SIZE) (hN : sw + n ≤ N)
    (hc : c ≤ LAYER_MAX_CHANNELS) (hT : ch0 + c ≤ T) :
    a.1 < LAYER_BUF_SIZE * LAYER_MAX_CHANNELS ∧ a.2.1 < N * T ∧ a.2.2 < T := by
  obtain ⟨s, lch, hs, hlch, rfl⟩ := layer_accesses_mem h
  refine ⟨?_, ?_, ?_⟩
  · show layer_sample s c lch < LAYER_BUF_SIZE * LAYER_MAX_CHANNELS
    unfold layer_sample
    have h1 : s * c + lch < LAYER_BUF_SIZE * c := frame_index_lt (by omega) hlch
    have h2 : LAYER_BUF_SIZE * c ≤ LAYER_BUF_SIZE * LAYER_MAX_CHANNELS :=
      Nat.mul_le_mul_left _ hc
    omega
  · show buffer_sample sw s T (ch0 + lch) < N * T
    unfold buffer_sample
    exact frame_index_lt (by omega) (by omega)
  · show ch0 + lch < T
    omega

theorem pass_accesses_bound
    (rv : (Nat → sample_t) → Nat → VGMSTREAM σ → (Nat → sample_t) × VGMSTREAM σ)
    (sw n T N : Nat) (hn : n ≤ LAYER_BUF_SIZE) (hN : sw + n ≤ N) :
    ∀ (cs : List (VGMSTREAM σ)) (ibuf : Nat → sample_t) (ch : Nat),
      (∀ x ∈ cs.map (fun c => c.channels), x ≤ LAYER_MAX_CHANNELS) →
      ch + total_channels cs ≤ T →
      ∀ a ∈ pass_accesses rv sw n T cs ibuf ch,
        a.1 < LAYER_BUF_SIZE * LAYER_MAX_CHANNELS ∧ a.2.1 < N * T ∧ a.2.2 < T := by
  intro cs
  induction cs with
  | nil => intro ibuf ch _ _ a ha; simp [pass_accesses] at ha
  | cons c cs ih =>
    intro ibuf ch hmax hT a ha
    rw [total_channels_cons] at hT
    simp only [pass_accesses, List.mem_append] at ha
    rcases ha with ha | ha
    · exact layer_accesses_bound ha hn hN (hmax _ (by simp)) (by omega)
    · exact ih _ _ (fun x hx => hmax x (by simp only [List.map_cons, List.mem_cons]; exact Or.inr hx))
        (by omega) a ha

theorem loop_accesses_bound
    (rv : (Nat → sample_t) → Nat → VGMSTREAM σ → (Nat → sample_t) × VGMSTREAM σ)
    (hch : KeepsChannels rv) (T N : Nat) :
    ∀ (fuel sw : Nat) (st : loop_state σ),
      (∀ x ∈ st.children.map (fun c => c.channels), x ≤ LAYER_MAX_CHANNELS) →
      T = total_channels st.children →
      ∀ a ∈ loop_accesses rv T N fuel sw st,
        a.1 < LAYER_BUF_SIZE * LAYER_MAX_CHANNELS ∧ a.2.1 < N * T ∧ a.2.2 < T := by
  intro fuel
  induction fuel with
  | zero => intro sw st _ _ a ha; simp [loop_accesses] at ha
  | succ fuel ih =>
    intro sw st hmax hT a ha
    unfold loop_accesses at ha
    by_cases hlt : sw < N
    · rw [if_pos hlt, List.mem_append] at ha
      rcases ha with ha | ha
      · exact pass_accesses_bound rv sw _ T N (by unfold LAYER_BUF_SIZE; omega) (by omega)
          st.children st.interleave_buf 0 hmax (by omega) a ha
      · have hchan := pass_layers_channels rv hch sw (min LAYER_BUF_SIZE (N - sw)) T
          st.children 0 st.interleave_buf st.buffer 0
        have hnext : (pass_loop rv T N 1 sw st).children =
            (pass_layers rv sw (min LAYER_BUF_SIZE (N - sw)) T 0 st.children
              st.interleave_buf st.buffer 0).children := by
          rw [pass_loop_step rv T N 0 sw st hlt]
          rfl
        refine ih _ _ ?_ ?_ a ha
        · rw [hnext, hchan]; exact hmax
        · rw [hnext, total_channels_congr hchan]; exact hT
    · rw [if_neg hlt] at ha
      simp at ha

theorem foldl_update_other {β : Type} (idx : β → Nat) (val : β → sample_t) (j : Nat) :
    ∀ (l : List β) (b : Nat → sample_t), j ∉ l.map idx →
      (l.foldl (fun b a => Function.update b (idx a) (val a)) b) j = b j := by
  intro l
  induction l with
  | nil => intro b _; rfl
  | cons a l ih =>
    intro b h
    simp only [List.map_cons, List.mem_cons, not_or] at h
    rw [List.foldl_cons, ih _ h.2, Function.update_noteq h.1]

/-- A pass writes the output only at the indices listed by `pass_accesses`. -/
theorem pass_layers_writes
    (rv : (Nat → sample_t) → Nat → VGMSTREAM σ → (Nat → sample_t) × VGMSTREAM σ)
    (sw n T j : Nat) :
    ∀ (cs : List (VGMSTREAM σ)) (i0 : Nat) (ibuf buffer : Nat → sample_t) (ch : Nat),
      j ∉ (pass_accesses rv sw n T cs ibuf ch).map (fun a => a.2.1) →
      (pass_layers rv sw n T i0 cs ibuf buffer ch).buffer j = buffer j := by
  intro cs
  induction cs with
  | nil => intro i0 ibuf buffer ch _; rfl
  | cons c cs ih =>
    intro i0 ibuf buffer ch h
    simp only [pass_accesses, List.map_append, List.mem_append, not_or] at h
    simp only [pass_layers]
    rw [ih, mix_layer_accesses]
    · exact foldl_update_other (fun (a : Nat × Nat × Nat) => a.2.1)
        (fun (a : Nat × Nat × Nat) => (rv ibuf n c).1 a.1) j _ _ h.1
    · rw [mix_layer_ch]
      exact h.2

/-- The loop writes the output only at the indices listed by `loop_accesses`. -/
theorem pass_loop_writes
    (rv : (Nat → sample_t) → Nat → VGMSTREAM σ → (Nat → sample_t) × VGMSTREAM σ)
    (T N j : Nat) :
    ∀ (fuel sw : Nat) (st : loop_state σ),
      j ∉ (loop_accesses rv T N fuel sw st).map (fun a => a.2.1) →
      (pass_loop rv T N fuel sw st).buffer j = st.buffer j := by
  intro fuel
  induction fuel with
  | zero => intro sw st _; rfl
  | succ fuel ih =>
    intro sw st h
    by_cases hlt : sw < N
    · unfold loop_accesses at h
      rw [if_pos hlt, List.map_append, List.mem_append, not_or] at h
      have hone : pass_loop rv T N (fuel + 1) sw st =
          pass_loop rv T N fuel (sw + min LAYER_BUF_SIZE (N - sw))
            (pass_loop rv T N 1 sw st) := by
        rw [pass_loop_step rv T N fuel sw st hlt, pass_loop_step rv T N 0 sw st hlt]
        rfl
      rw [hone, ih _ _ h.2, pass_loop_step rv T N 0 sw st hlt]
      exact pass_layers_writes rv sw _ T j st.children 0 st.interleave_buf st.buffer 0 h.1
    · rw [pass_loop_done rv T N _ sw st hlt]

/-- C19: bounds safety of the renderer.  On a populated composite with `T` channels,
`T` the sum of the channel counts of its children, each of them at most
`LAYER_MAX_CHANNELS = 6` (as `setup_layout_layered` checks), every access of a render
of `N` frames reads the scratch array at an index `s*layer_channels + layer_ch <
512 * 6 = 3072` and writes the output at an index `(samples_written+s)*T + ch < N * T`,
with `ch < T`; and the render writes the output at no other index than the listed
ones. -/
theorem render_layered_bounds
    (rv : (Nat → sample_t) → Nat → VGMSTREAM σ → (Nat → sample_t) × VGMSTREAM σ)
    (hch : KeepsChannels rv) (vg : VGMSTREAM (layered_layout_data σ))
    (cs : List (VGMSTREAM σ)) (hpop : Populated vg.layout_data cs) (hne : cs ≠ [])
    (hmax : ∀ c ∈ cs, c.channels ≤ LAYER_MAX_CHANNELS)
    (hT : vg.channels = total_channels cs) (ibuf buffer : Nat → sample_t) (N : Nat) :
    (∀ a ∈ render_accesses rv vg cs ibuf buffer N,
      a.1 < LAYER_BUF_SIZE * LAYER_MAX_CHANNELS ∧ a.2.1 < N * vg.channels ∧
        a.2.2 < vg.channels) ∧
    ∃ st, render_vgmstream_layered rv ibuf buffer (N : Int) vg = some st ∧
      ∀ j, j ∉ (render_accesses rv vg cs ibuf buffer N).map (fun a => a.2.1) →
        st.buffer j = buffer j := by
  refine ⟨?_, _, render_layered_populated rv vg cs hpop hne ibuf buffer N, ?_⟩
  · intro a ha
    refine loop_accesses_bound rv hch vg.channels N N 0 _ ?_ hT a ha
    intro x hx
    simp only [List.mem_map] at hx
    obtain ⟨c, hc, rfl⟩ := hx
    exact hmax c hc
  · intro j hj
    exact pass_loop_writes rv vg.channels N j N 0 _ hj

theorem render_layered_bounds_witness :
    (render_accesses ramp_decoder (test_composite test_trio) test_trio (fun _ => 0)
        (fun _ => 0) 2) =
      [(0, 0, 0), (2, 5, 0), (1, 1, 1), (3, 6, 1), (0, 2, 2), (1, 7, 2),
        (0, 3, 3), (2, 8, 3), (1, 4, 4), (3, 9, 4)] ∧
    ((∀ a ∈ render_accesses ramp_decoder (test_composite test_trio) test_trio (fun _ => 0)
        (fun _ => 0) 2,
      a.1 < LAYER_BUF_SIZE * LAYER_MAX_CHANNELS ∧ a.2.1 < 2 * (test_composite test_trio).channels ∧
        a.2.2 < (test_composite test_trio).channels) ∧
    ∃ st, render_vgmstream_layered ramp_decoder (fun _ => 0) (fun _ => 0) ((2 : Nat) : Int)
        (test_composite test_trio) = some st ∧
      ∀ j, j ∉ (render_accesses ramp_decoder (test_composite test_trio) test_trio (fun _ => 0)
          (fun _ => 0) 2).map (fun a => a.2.1) →
        st.buffer j = (fun _ => 0) j) :=
  ⟨by decide,
    render_layered_bounds ramp_decoder (fun _ _ _ => rfl) (test_composite test_trio) test_trio
      (test_composite_populated test_trio) (by simp [test_trio]) (by decide) rfl (fun _ => 0)
      (fun _ => 0) 2⟩

theorem setup_warnings_calls (i : Nat) (cur prev : VGMSTREAM σ) :
    (setup_warnings i cur prev).filterMap Event.setup_call = [] := by
  unfold setup_warnings
  split <;> split <;> simp [Event.setup_call]

theorem setup_loop_step (setup_vgmstream : VGMSTREAM σ → VGMSTREAM σ) (remaining i : Nat)
    (data : layered_layout_data σ) (ev : List Event) (l : VGMSTREAM σ) (w : List Event)
    (hlay : data.layer i = some (some l)) (h1 : ¬ l.num_samples ≤ 0)
    (h2 : ¬ l.channels > LAYER_MAX_CHANNELS)
    (hw : (if i > 0 then (data.deref (i - 1)).map (setup_warnings i l) else some []) = some w) :
    setup_loop setup_vgmstream (remaining + 1) i data ev =
      setup_loop setup_vgmstream remaining (i + 1) (data.store i (setup_vgmstream l))
        (ev ++ w ++ [Event.setup_vgmstream i]) := by
  rw [setup_loop]
  simp only [hlay, if_neg h1, if_neg h2, hw]

/-- The loop of `setup_layout_layered` over a run of valid children `todo`: each of
them is passed to `setup_vgmstream` once, in order, and the loop goes on behind them. -/
theorem setup_loop_run (setup_vgmstream : VGMSTREAM σ → VGMSTREAM σ)
    (tail : List (Option (VGMSTREAM σ))) (remaining : Nat) :
    ∀ (todo done : List (VGMSTREAM σ)) (data : layered_layout_data σ) (ev : List Event),
      data.layers = some ((done ++ todo).map some ++ tail) →
      (∀ c ∈ todo, 0 < c.num_samples ∧ c.channels ≤ LAYER_MAX_CHANNELS) →
      ∃ evs,
        setup_loop setup_vgmstream (todo.length + remaining) done.length data ev =
          setup_loop setup_vgmstream remaining (done.length + todo.length)
            { data with layers := some ((done ++ todo.map setup_vgmstream).map some ++ tail) }
            (ev ++ evs) ∧
        evs.filterMap Event.setup_call = List.range' done.length todo.length := by
  intro todo
  induction todo with
  | nil =>
    intro done data ev hl _
    refine ⟨[], ?_, rfl⟩
    obtain ⟨lc, layers⟩ := data
    simp only [List.append_nil] at hl
    subst hl
    simp
  | cons c rest ih =>
    intro done data ev hl hok
    have hc := hok c (List.mem_cons_self _ _)
    have hget : ((done ++ c :: rest).map some ++ tail)[done.length]? = some (some c) := by
      rw [List.getElem?_append_left (by simp), List.map_append,
        List.getElem?_append_right (by simp)]
      simp
    have hw : ∃ w, (if done.length > 0 then
        (data.deref (done.length - 1)).map (setup_warnings done.length c)
        else some []) = some w ∧ w.filterMap Event.setup_call = [] := by
      by_cases hi : done.length > 0
      · rw [if_pos hi]
        have hlt : done.length - 1 < done.length := by omega
        have : ((done ++ c :: rest).map some ++ tail)[done.length - 1]? =
            some (some done[done.length - 1]) := by
          rw [List.getElem?_append_left (by simp; omega), List.map_append,
            List.getElem?_append_left (by simp; omega)]
          simp [List.getElem?_eq_getElem hlt]
        refine ⟨setup_warnings done.length c done[done.length - 1], ?_,
          setup_warnings_calls _ _ _⟩
        rw [layered_layout_data.deref, layer_of_layers hl, this]
        rfl
      · rw [if_neg hi]; exact ⟨[], rfl, rfl⟩
    obtain ⟨w, hw, hwf⟩ := hw
    have hlen : (c :: rest).length + remaining = (rest.length + remaining) + 1 := by
      simp only [List.length_cons]; omega
    rw [hlen, setup_loop_step setup_vgmstream _ _ data ev c w (by rw [layer_of_layers hl, hget])
      (by omega) (by omega) hw]
    have hl2 : (data.store done.length (setup_vgmstream c)).layers =
        some (((done ++ [setup_vgmstream c]) ++ rest).map some ++ tail) := by
      rw [store_layers hl]
      simp [List.set_append_left, List.set_append_right]
    obtain ⟨evs, h1, h2⟩ := ih (done ++ [setup_vgmstream c]) _
      (ev ++ w ++ [Event.setup_vgmstream done.length]) hl2
      (fun c1 h1 => hok c1 (List.mem_cons_of_mem _ h1))
    simp only [List.length_append, List.length_singleton] at h1 h2
    refine ⟨w ++ [Event.setup_vgmstream done.length] ++ evs, ?_, ?_⟩
    · rw [h1]
      simp only [List.length_cons, layered_layout_data.store, List.map_cons, List.append_assoc,
        List.singleton_append]
      congr 1
      omega
    · rw [List.filterMap_append, List.filterMap_append, hwf, h2]
      simp [Event.setup_call, List.range'_succ]

theorem setup_loop_bad (setup_vgmstream : VGMSTREAM σ → VGMSTREAM σ) (remaining i : Nat)
    (data : layered_layout_data σ) (ev : List Event) (slot : Option (VGMSTREAM σ))
    (hlay : data.layer i = some slot) (hbad : BadSlot slot) :
    setup_loop setup_vgmstream (remaining + 1) i data ev = some (0, data, ev) := by
  rw [setup_loop]
  cases slot with
  | none => simp only [hlay]
  | some l =>
    simp only [hlay]
    rcases hbad with h | h
    · rw [if_pos h]
    · by_cases h1 : l.num_samples ≤ 0
      · rw [if_pos h1]
      · rw [if_neg h1, if_pos h]

/-- C20: `setup_layout_layered` validates and finalizes in one pass.  When the first
`k` slots hold valid children (`good`, with `k = good.length`) and slot `k < layer_count`
is empty or holds a child with `num_samples ≤ 0` or more than 6 channels, it returns 0
after calling `setup_vgmstream` exactly once on each child at the indices `0..k-1`, in
order, and on no other (the slots from `k` on are as before); when all `layer_count`
slots hold valid children it returns 1 after calling it once on every child, in
order. -/
theorem setup_layout_layered_trace (setup_vgmstream : VGMSTREAM σ → VGMSTREAM σ)
    (data : layered_layout_data σ) (good : List (VGMSTREAM σ))
    (rest : List (Option (VGMSTREAM σ)))
    (hl : data.layers = some (good.map some ++ rest))
    (hgood : ∀ c ∈ good, 0 < c.num_samples ∧ c.channels ≤ LAYER_MAX_CHANNELS) :
    ((good.length : Int) < data.layer_count → ∀ bad tail, rest = bad :: tail → BadSlot bad →
      ∃ ev, setup_layout_layered setup_vgmstream data =
          some (0, { data with layers := some ((good.map setup_vgmstream).map some ++ rest) },
            ev) ∧
        ev.filterMap Event.setup_call = List.range good.length) ∧
    (data.layer_count = good.length →
      ∃ ev, setup_layout_layered setup_vgmstream data =
          some (1, { data with layers := some ((good.map setup_vgmstream).map some ++ rest) },
            ev) ∧
        ev.filterMap Event.setup_call = List.range good.length) := by
  constructor
  · intro hk bad tail hrest hbad
    obtain ⟨rem, hrem⟩ : ∃ rem, data.layer_count.toNat = good.length + (rem + 1) :=
      ⟨data.layer_count.toNat - good.length - 1, by omega⟩
    obtain ⟨evs, h1, h2⟩ := setup_loop_run setup_vgmstream rest (rem + 1) good [] data []
      (by simpa using hl) hgood
    simp only [List.length_nil, List.nil_append, Nat.zero_add] at h1 h2
    refine ⟨evs, ?_, by rw [h2, List.range_eq_range']⟩
    unfold setup_layout_layered
    rw [hrem, h1]
    apply setup_loop_bad setup_vgmstream rem good.length _ evs bad _ hbad
    rw [layer_of_layers rfl, hrest, List.getElem?_append_right (by simp)]
    simp
  · intro hk
    obtain ⟨evs, h1, h2⟩ := setup_loop_run setup_vgmstream rest 0 good [] data []
      (by simpa using hl) hgood
    simp only [List.length_nil, List.nil_append, Nat.zero_add, Nat.add_zero] at h1 h2
    refine ⟨evs, ?_, by rw [h2, List.range_eq_range']⟩
    unfold setup_layout_layered
    have : data.layer_count.toNat = good.length := by omega
    rw [this, h1]
    rfl

theorem setup_layout_layered_trace_witness :
    (∃ ev, setup_layout_layered id test_partial =
        some (0, { test_partial with
          layers := some (([test_child 1 44100 0 1 10, test_child 1 44100 0 1 20].map id).map
            some ++ [none, none, none]) }, ev) ∧
      ev.filterMap Event.setup_call = List.range 2) ∧
    (∃ ev, setup_layout_layered id (test_composite test_trio).layout_data =
        some (1, { (test_composite test_trio).layout_data with
          layers := some ((test_trio.map id).map some ++ []) }, ev) ∧
      ev.filterMap Event.setup_call = List.range test_trio.length) ∧
    (setup_layout_layered id test_partial).map
        (fun r => (r.1, r.2.2.filterMap Event.setup_call)) = some (0, [0, 1]) ∧
    (setup_layout_layered id (test_composite test_trio).layout_data).map
        (fun r => (r.1, r.2.2.filterMap Event.setup_call)) = some (1, [0, 1, 2]) :=
  ⟨(setup_layout_layered_trace id test_partial
      [test_child 1 44100 0 1 10, test_child 1 44100 0 1 20] [none, none, none] rfl
      (by decide)).1 (by decide) none [none, none] rfl trivial,
    (setup_layout_layered_trace id (test_composite test_trio).layout_data test_trio [] rfl
      (by decide)).2 rfl,
    by decide, by decide⟩

end Layered
